import Mathlib

/-!
Formal model of the `Simulation` class of `pulser/simulation/simulation.py`.

Conventions of the shallow embedding:
* machine floats are modelled by exact rationals `ℚ`; transcendental
  primitives used by the code (`np.exp`, `np.sqrt`, `exp(-1j*phase)`) are
  supplied as explicit function parameters (a `Prims` record), since the
  claims under study never depend on their particular values;
* complex scalars are modelled by an arbitrary commutative star ring `α`
  that is a `ℚ`-algebra (instantiated with `ℚ` in concrete witnesses);
* `qutip.Qobj` operators on the N-qubit space are modelled as entry
  functions indexed by level assignments (one level per qubit slot);
  the only operations the source applies to them are addition, scalar
  multiplication, subtraction, adjoint and tensor products, all of which
  are entrywise and modelled directly;
* `np.random` draws are modelled by explicit streams of values passed in
  as arguments, mirroring the order in which the source consumes them;
* python dicts keyed by qubit id or basis name are modelled by
  association lists (preserving insertion order) or by update functions.
-/

namespace PulserSim

attribute [local semireducible] Rat.mul Rat.add Rat.inv Rat.sub List.merge List.mergeSort

/-- External qubit identifiers (strings or ints in the source) are modelled
as naturals. -/
abbrev QubitId := ℕ

/-- A single-qubit operator: entry function on basis-state numbers. -/
abbrev Op1 (α : Type) := ℕ → ℕ → α

/-- An operator on the full N-qubit space: entries are indexed by functions
assigning a level to every qubit slot (slots `≥ N` are ignored). -/
abbrev QMat (α : Type) := (ℕ → ℕ) → (ℕ → ℕ) → α

variable {α : Type} [CommRing α] [StarRing α] [DecidableEq α] [Algebra ℚ α]

/-- Embedding of the exact rational scalars into the scalar ring. -/
def ratC (x : ℚ) : α := algebraMap ℚ α x

/-- The zero operator. -/
def zeroM : QMat α := fun _ _ => 0

/-- Operator addition (entrywise). -/
def addM (A B : QMat α) : QMat α := fun i j => A i j + B i j

/-- Scalar multiple of an operator. -/
def smulM (c : α) (A : QMat α) : QMat α := fun i j => c * A i j

/-- Operator difference. -/
def subM (A B : QMat α) : QMat α := fun i j => A i j - B i j

/-- Adjoint (`Qobj.dag()`): conjugate transpose. -/
def dagM (A : QMat α) : QMat α := fun i j => star (A j i)

/-- Sum of a list of operators, as `sum(...)` over qutip objects
(left fold starting from the integer 0). -/
def sumM (l : List (QMat α)) : QMat α := l.foldl addM zeroM

/-- The identity on one `d`-level qubit (`qutip.qeye(dim)`). -/
def idOp (d : ℕ) : Op1 α := fun a b => if a = b ∧ a < d then 1 else 0

/-- Rank-one projector-type operator `|x><y|`
(`self.basis[x] * self.basis[y].dag()`). -/
def ketbra (x y : ℕ) : Op1 α := fun a b => if a = x ∧ b = y then 1 else 0

/-- Basis-state labels per basis name, in the order fixed by
`_build_basis_and_op_matrices` (which determines the state numbering). -/
def basisStates (name : String) : List String :=
  if name = "XY" then ["u", "d"]
  else if name = "ground-rydberg" then ["r", "g"]
  else if name = "digital" then ["g", "h"]
  else ["r", "g", "h"]

/-- The per-qubit Hilbert-space dimension chosen by
`_build_basis_and_op_matrices`. -/
def dimOf (name : String) : ℕ := (basisStates name).length

/-- The operator registry `self.op_matrix` built by
`_build_basis_and_op_matrices`: the identity plus the projectors listed for
the chosen basis.  State numbers follow the order of `basisStates`. -/
def opMatrix (name : String) : List (String × Op1 α) :=
  if name = "XY" then
    [("I", idOp 2), ("sigma_uu", ketbra 0 0), ("sigma_du", ketbra 1 0),
      ("sigma_ud", ketbra 0 1), ("sigma_dd", ketbra 1 1)]
  else if name = "ground-rydberg" then
    [("I", idOp 2), ("sigma_gr", ketbra 1 0), ("sigma_rr", ketbra 0 0),
      ("sigma_gg", ketbra 1 1)]
  else if name = "digital" then
    [("I", idOp 2), ("sigma_hg", ketbra 1 0), ("sigma_hh", ketbra 1 1),
      ("sigma_gg", ketbra 0 0)]
  else
    [("I", idOp 3), ("sigma_gr", ketbra 1 0), ("sigma_hg", ketbra 2 1),
      ("sigma_rr", ketbra 0 0), ("sigma_gg", ketbra 1 1),
      ("sigma_hh", ketbra 2 2)]

/-- Lookup of a named operator in the registry. -/
def lookupOp (opm : List (String × Op1 α)) (s : String) : Option (Op1 α) :=
  (opm.find? (fun p => p.1 = s)).map (fun p => p.2)

/-- An operator argument of `build_operator`: either a registry name or an
explicit matrix (`qutip.Qobj`). -/
inductive OpSpec (α : Type) where
  | name (s : String)
  | mat (m : Op1 α)

/-- A target argument of `build_operator`: the literal string "global" or a
list of qubit identifiers. -/
inductive OpTarget where
  | global
  | targets (qs : List QubitId)
deriving DecidableEq

/-- Position of a qubit id in the register order (`self._qid_index`). -/
def qidIndex (qids : List QubitId) (q : QubitId) : ℕ :=
  qids.findIdx (fun x => x = q)

/-- Resolution of an operator argument: an explicit matrix is kept, a name
is looked up in `self.op_matrix` (raising `ValueError` when absent). -/
def resolveOp (opm : List (String × Op1 α)) : OpSpec α → Except String (Op1 α)
  | OpSpec.mat m => Except.ok m
  | OpSpec.name s =>
    match lookupOp opm s with
    | some m => Except.ok m
    | none => Except.error (s ++ " is not a valid operator")

/-- One iteration of the loop body of `build_operator` for a non-global
pair: validate the target list (duplicates, then unknown ids), resolve the
operator, and write it at each target position of `op_list`. -/
def applyPair (qids : List QubitId) (opm : List (String × Op1 α))
    (ol : List (Op1 α)) (spec : OpSpec α) (qs : List QubitId) :
    Except String (List (Op1 α)) :=
  if qs.dedup.length < qs.length then
    Except.error "Duplicate atom ids in argument list."
  else if ¬ (∀ q ∈ qs, q ∈ qids) then
    Except.error "Invalid qubit names"
  else
    (resolveOp opm spec).map
      (fun m => qs.foldl (fun acc q => acc.set (qidIndex qids q) m) ol)

/-- The tensor product `qutip.tensor(op_list)` of a list of single-qubit
operators. -/
def tensorOps (ol : List (Op1 α)) : QMat α :=
  fun i j => ∏ k ∈ Finset.range ol.length, (ol.getD k (fun _ _ => 0)) (i k) (j k)

/-- The recursive call `build_operator([(operator, [q_id])])` made by the
"global" branch: a fresh identity `op_list` with the operator placed at one
qubit. -/
def buildSingle (qids : List QubitId) (opm : List (String × Op1 α))
    (iop : Op1 α) (spec : OpSpec α) (q : QubitId) : Except String (QMat α) :=
  (applyPair qids opm (List.replicate qids.length iop) spec [q]).map tensorOps

/-- The "global" branch of `build_operator`: the sum over the register of
the single-qubit placement (errors from the recursive calls propagate in
order, as they do through the python generator inside `sum`). -/
def globalSum (qids : List QubitId) (opm : List (String × Op1 α))
    (iop : Op1 α) (spec : OpSpec α) : Except String (QMat α) :=
  (qids.mapM (buildSingle qids opm iop spec)).map sumM

/-- The loop of `build_operator` over the `(operator, qubits)` pairs,
carrying the mutable `op_list`.  A pair whose target is the "global" marker
returns immediately with the global sum, abandoning `op_list`. -/
def buildOperatorGo (qids : List QubitId) (opm : List (String × Op1 α))
    (iop : Op1 α) :
    List (OpSpec α × OpTarget) → List (Op1 α) → Except String (QMat α)
  | [], ol => Except.ok (tensorOps ol)
  | (spec, OpTarget.global) :: _, _ => globalSum qids opm iop spec
  | (spec, OpTarget.targets qs) :: rest, ol =>
    match applyPair qids opm ol spec qs with
    | Except.error e => Except.error e
    | Except.ok ol1 => buildOperatorGo qids opm iop rest ol1

/-- `Simulation.build_operator`: builds an operator with non-trivial action
on some qubits, starting from `op_list = [self.op_matrix["I"]] * size`. -/
def build_operator (qids : List QubitId) (opm : List (String × Op1 α))
    (operations : List (OpSpec α × OpTarget)) : Except String (QMat α) :=
  match resolveOp opm (OpSpec.name "I") with
  | Except.error e => Except.error e
  | Except.ok iop =>
    buildOperatorGo qids opm iop operations (List.replicate qids.length iop)

/-- Validity of one non-global `(operator, qubits)` pair, mirroring the
checks of the loop body: no duplicate ids in the target list, all ids
known, and the operator resolvable in the registry. -/
def pairValid (qids : List QubitId) (opm : List (String × Op1 α)) :
    OpSpec α × OpTarget → Bool
  | (spec, OpTarget.global) => (resolveOp opm spec).isOk
  | (spec, OpTarget.targets qs) =>
    !(qs.dedup.length < qs.length) && (∀ q ∈ qs, q ∈ qids) &&
      (resolveOp opm spec).isOk

/-- The identity operator on the whole N-qubit space of `d`-level qubits
(tensor power of `qutip.qeye(d)`). -/
def fullIdentity (N d : ℕ) : QMat α := tensorOps (List.replicate N (idOp d))

/-! ### Sampling-rate validation and the coarse time grid -/

/-- `np.linspace(0, stop, num, dtype=int)` with integer truncation, as used
for index grids (numpy float arithmetic idealised to exact rationals; note
that natural division by `num - 1 = 0` yields 0, matching
`linspace(0, stop, 1) = [0]`). -/
def linspaceInt (stop num : ℕ) : List ℕ :=
  (List.range num).map (fun i => i * stop / (num - 1))

/-- Number of coarse grid points: `int(tot_duration * sampling_rate)`. -/
def numGridPoints (rate : ℚ) (T : ℕ) : ℕ := (⌊rate * (T : ℚ)⌋).toNat

/-- The sampling-rate validation performed by `Simulation.__init__`
(range check first, then the minimum-points check). -/
def samplingRateCheck (rate : ℚ) (T : ℕ) : Except String Unit :=
  if ¬ (0 < rate ∧ rate ≤ 1) then
    Except.error "The sampling rate must be greater than 0 and less than or equal to 1."
  else if ⌊rate * (T : ℚ)⌋ < 4 then
    Except.error "sampling_rate is too small, less than 4 data points."
  else Except.ok ()

/-- The index grid selected by `_adapt_to_sampling_rate`:
`np.linspace(0, tot_duration - 1, int(sampling_rate * tot_duration), dtype=int)`. -/
def adaptIndices (rate : ℚ) (T : ℕ) : List ℕ :=
  linspaceInt (T - 1) (numGridPoints rate T)

/-- `_adapt_to_sampling_rate` applied to a full per-nanosecond array:
decimation at the index grid. -/
def adaptArray (rate : ℚ) (T : ℕ) (f : ℕ → α) : List α :=
  (adaptIndices rate T).map f

/-! ### Evaluation-times setter -/

/-- The float branch of the `evaluation_times` setter: a resampling
fraction `v` selects `int(v * len(extended))` indices of
`extended = sampling_times ++ [duration]` via `np.linspace(..., dtype=int)`. -/
def evalTimesFloat (samplingTimes : List ℚ) (dur : ℚ) (v : ℚ) :
    Except String (List ℚ) :=
  if v > 1 ∨ v ≤ 0 then
    Except.error "evaluation_times float must be between 0 and 1."
  else
    Except.ok ((linspaceInt ((samplingTimes ++ [dur]).length - 1)
        ((⌊v * (((samplingTimes ++ [dur]).length : ℕ) : ℚ)⌋).toNat)).map
      (fun i => (samplingTimes ++ [dur]).getD i 0))

/-- The explicit-list branch of the `evaluation_times` setter: range checks
on max and min (`np.max`/`np.min` fail on an empty array), sort, then
prepend `0` when `min > 0` and append the duration when `max < duration`. -/
def evalTimesList (dur : ℚ) (ts : List ℚ) : Except String (List ℚ) :=
  match ts with
  | [] => Except.error "zero-size array to reduction operation"
  | t :: rest =>
    if rest.foldl max t > dur then
      Except.error "Provided evaluation-time list extends further than sequence duration."
    else if rest.foldl min t < 0 then
      Except.error "Provided evaluation-time list contains negative values."
    else
      Except.ok (if rest.foldl max t < dur then
          (if rest.foldl min t > 0 then 0 :: (t :: rest).mergeSort
            else (t :: rest).mergeSort) ++ [dur]
        else if rest.foldl min t > 0 then 0 :: (t :: rest).mergeSort
          else (t :: rest).mergeSort)

/-! ### Data model: sequence, configuration, noise state -/

/-- A pulse carried by a schedule slot: per-sample amplitude and detuning
waveforms (indexed relative to the slot start) and a constant phase. -/
structure Pulse where
  amp : ℕ → ℚ
  det : ℕ → ℚ
  phase : ℚ

/-- One `_TimeSlot` of a channel schedule.  `pulse = none` models a
non-`Pulse` slot (delay, target change), which contributes nothing. -/
structure TimeSlot where
  ti : ℕ
  tf : ℕ
  targets : List QubitId
  pulse : Option Pulse

/-- A declared channel: addressing mode, logical basis, and its schedule. -/
structure Channel where
  addressing : String
  basis : String
  slots : List TimeSlot

/-- The data consumed from the external `Sequence` collaborator. -/
structure SeqData where
  qids : List QubitId
  pos : QubitId → ℚ × ℚ
  duration : ℕ
  channels : List Channel
  slmTargets : List QubitId
  slmTime : List ℕ
  interactionCoeff : ℚ
  interactionCoeffXY : ℚ
  magField : ℚ × ℚ

/-- The external `SimConfig`, consumed read-only (`spam_dict` entries are
the `eta`/`epsilon`/`epsilon_prime` fields). -/
structure SimConfig where
  noise : List String
  eta : ℚ
  runs : ℕ
  samplesPerRun : ℕ
  dephasingProb : ℚ
  laserWaist : ℚ
  dopplerSigma : ℚ
  epsilon : ℚ
  epsilonPrime : ℚ
deriving DecidableEq

/-- Numeric primitives the source takes from numpy; they enter the model
as explicit parameters because no claim depends on their values.
`cexp x` stands for the phase factor `exp(-1j * x)`. -/
structure Prims (α : Type) where
  sqrtQ : ℚ → ℚ
  expQ : ℚ → ℚ
  cexp : ℚ → α

/-- The pseudo-random draws consumed by one noise update / extraction:
`uniform k` is the `np.random.uniform` draw for qubit index `k`,
`normal k` the `np.random.normal(0, doppler_sigma)` draw for qubit index
`k`, and `ampFactor ch slot q` the `np.random.normal(1.0, 1.0e-3)` draw
made inside `write_samples` for channel `ch`, slot `slot`, qubit `q`. -/
structure NoiseDraws where
  uniform : ℕ → ℚ
  normal : ℕ → ℚ
  ampFactor : ℕ → ℕ → QubitId → ℚ

/-- One `{amp, det, phase}` entry of the samples dictionary
(`prepare_dict()` gives the all-zero entry). -/
structure SampleTriple where
  amp : ℕ → ℚ
  det : ℕ → ℚ
  phase : ℕ → ℚ

/-- The all-zero coefficient entry created by `prepare_dict`. -/
def emptyTriple : SampleTriple := ⟨fun _ => 0, fun _ => 0, fun _ => 0⟩

/-- The samples dictionary `self.samples`: a `Global` entry per basis
(`none` models the empty dict) and a `Local` qubit-keyed association list
per basis (insertion order preserved, as in a python dict). -/
structure SamplesTable where
  glob : String → Option SampleTriple
  loc : String → List (QubitId × SampleTriple)

/-- The freshly reset samples dictionary. -/
def SamplesTable.empty : SamplesTable := ⟨fun _ => none, fun _ => []⟩

/-- Update of a `Global` entry. -/
def setGlob (tbl : SamplesTable) (b : String) (v : SampleTriple) : SamplesTable :=
  ⟨fun x => if x = b then some v else tbl.glob x, tbl.loc⟩

/-- Update of a `Local` per-basis dictionary. -/
def setLoc (tbl : SamplesTable) (b : String)
    (l : List (QubitId × SampleTriple)) : SamplesTable :=
  ⟨tbl.glob, fun x => if x = b then l else tbl.loc x⟩

/-- Dictionary read on an association list. -/
def alistGet (l : List (QubitId × SampleTriple)) (q : QubitId) :
    Option SampleTriple :=
  (l.find? (fun p => p.1 = q)).map (fun p => p.2)

/-- Dictionary write on an association list: update in place when the key
exists, append otherwise (python dict insertion order). -/
def alistSet (l : List (QubitId × SampleTriple)) (q : QubitId)
    (v : SampleTriple) : List (QubitId × SampleTriple) :=
  if (l.find? (fun p => p.1 = q)).isSome then
    l.map (fun p => if p.1 = q then (q, v) else p)
  else l ++ [(q, v)]

/-- A term of the assembled `qobj_list`: either a bare (time-independent)
operator or an `[operator, coefficient-array]` pair whose coefficients are
already decimated onto the coarse grid. -/
inductive HTerm (α : Type) where
  | const (m : QMat α)
  | timeDep (m : QMat α) (coeff : List α)

/-- The mutable state of a `Simulation` object (the fields the modelled
methods read or write).  The operator cache `self.operators` is omitted:
it only avoids recomputation and never changes any value. -/
structure SimState (α : Type) where
  seq : SeqData
  interaction : String
  samplingRate : ℚ
  config : SimConfig
  badAtoms : QubitId → Bool
  dopplerDetune : QubitId → ℚ
  basisName : Option String
  samples : SamplesTable
  hamTerms : List (HTerm α)
  collapseOps : List (QMat α)
  initialState : List α
  evalTimes : List ℚ

/-- The basis name once built (`self.basis_name`; defined after the first
`_construct_hamiltonian`). -/
def bnameD (st : SimState α) : String := st.basisName.getD ""

/-- The operator registry of the current basis (`self.op_matrix`). -/
def registry (st : SimState α) : List (String × Op1 α) := opMatrix (bnameD st)

/-- `self.build_operator` with the state's register and registry. -/
def buildOp (st : SimState α) (ops : List (OpSpec α × OpTarget)) :
    Except String (QMat α) :=
  build_operator st.seq.qids (registry st) ops

/-! ### Noise update and sample extraction -/

/-- `_update_noise`: redraw `bad_atoms` as Bernoulli trials
(`uniform < eta`) when SPAM noise with positive `eta` is on, and redraw
`doppler_detune` when doppler noise is on. -/
def update_noise (st : SimState α) (d : NoiseDraws) : SimState α :=
  let st1 :=
    if "SPAM" ∈ st.config.noise ∧ 0 < st.config.eta then
      {st with badAtoms := fun q => d.uniform (qidIndex st.seq.qids q) < st.config.eta}
    else st
  if "doppler" ∈ st.config.noise then
    {st1 with dopplerDetune := fun q => d.normal (qidIndex st.seq.qids q)}
  else st1

/-- `write_samples`: accumulate one pulse slot into a coefficient entry,
applying the per-qubit doppler offset and, for globally addressed pulses
under amplitude noise, the per-slot Gaussian-beam amplitude factor
(`normal(1, 1e-3) * exp(-(r/waist)^2)`, with `(r/waist)^2` computed
exactly as the squared norm over the squared waist). -/
def writeSamples (st : SimState α) (d : NoiseDraws) (prims : Prims α)
    (chIdx slotIdx : ℕ) (slot : TimeSlot) (p : Pulse) (isGlobalPulse : Bool)
    (q : QubitId) (tr : SampleTriple) : SampleTriple :=
  let noiseDet : ℚ := if "doppler" ∈ st.config.noise then st.dopplerDetune q else 0
  let noiseAmp : ℚ :=
    if "amplitude" ∈ st.config.noise ∧ isGlobalPulse then
      let pos := st.seq.pos q
      d.ampFactor chIdx slotIdx q *
        prims.expQ (-((pos.1 ^ 2 + pos.2 ^ 2) / st.config.laserWaist ^ 2))
    else 1
  { amp := fun t => if slot.ti ≤ t ∧ t < slot.tf then
      tr.amp t + p.amp (t - slot.ti) * noiseAmp else tr.amp t
    det := fun t => if slot.ti ≤ t ∧ t < slot.tf then
      tr.det t + (p.det (t - slot.ti) + noiseDet) else tr.det t
    phase := fun t => if slot.ti ≤ t ∧ t < slot.tf then
      tr.phase t + p.phase else tr.phase t }

/-- One slot of the coherent-global fast path, threading the `slm_on`
flag: while the SLM mask is on and overlaps the slot, targets are demoted
to `Local` entries; the first slot past the mask end turns the flag off
for good and writes into the shared `Global` entry. -/
def coherentGlobalSlot (st : SimState α) (d : NoiseDraws) (prims : Prims α)
    (chIdx : ℕ) (basis : String) (acc : SamplesTable × Bool)
    (islot : ℕ × TimeSlot) : SamplesTable × Bool :=
  match islot.2.pulse with
  | none => acc
  | some p =>
    if acc.2 ∧ islot.2.ti < st.seq.slmTime.getD 1 0 then
      (setLoc acc.1 basis (islot.2.targets.foldl (fun l q =>
        alistSet l q (writeSamples st d prims chIdx islot.1 islot.2 p true q
          ((alistGet l q).getD emptyTriple))) (acc.1.loc basis)), acc.2)
    else
      (setGlob acc.1 basis (writeSamples st d prims chIdx islot.1 islot.2 p true 0
        ((acc.1.glob basis).getD emptyTriple)), false)

/-- One slot of the general (noisy or local) path: an entry is created for
every target, but nothing is written for a badly prepared qubit. -/
def generalSlot (st : SimState α) (d : NoiseDraws) (prims : Prims α)
    (chIdx : ℕ) (isGlobal : Bool) (l : List (QubitId × SampleTriple))
    (islot : ℕ × TimeSlot) : List (QubitId × SampleTriple) :=
  match islot.2.pulse with
  | none => l
  | some p =>
    islot.2.targets.foldl (fun l2 q =>
      if st.badAtoms q then alistSet l2 q ((alistGet l2 q).getD emptyTriple)
      else alistSet l2 q (writeSamples st d prims chIdx islot.1 islot.2 p isGlobal q
        ((alistGet l2 q).getD emptyTriple))) l

/-- Zero out a coefficient entry on `[0, tf)` (the SLM mask application). -/
def maskTriple (tr : SampleTriple) (tf : ℕ) : SampleTriple :=
  ⟨fun t => if t < tf then 0 else tr.amp t,
    fun t => if t < tf then 0 else tr.det t,
    fun t => if t < tf then 0 else tr.phase t⟩

/-- Applies the SLM mask to the masked qubits of one basis; reading a
qubit with no `Local` entry raises (`KeyError` in the source). -/
def applyMask (tbl : SamplesTable) (basis : String) (tf : ℕ) :
    List QubitId → Except String SamplesTable
  | [] => Except.ok tbl
  | q :: rest =>
    match alistGet (tbl.loc basis) q with
    | none => Except.error "KeyError in SLM mask application"
    | some tr =>
      applyMask (setLoc tbl basis (alistSet (tbl.loc basis) q (maskTriple tr tf)))
        basis tf rest

/-- Processing of one channel in `_extract_samples`: the coherent-global
fast path when the channel is global and noise is at most dephasing, the
general per-qubit path otherwise, followed by the SLM mask application
(which runs once per channel, on that channel's basis). -/
def extractChannel (st : SimState α) (d : NoiseDraws) (prims : Prims α)
    (tbl : SamplesTable) (chIdx : ℕ) (ch : Channel) :
    Except String SamplesTable :=
  let tbl1 :=
    if ch.addressing = "Global" ∧ (∀ x ∈ st.config.noise, x = "dephasing") then
      (ch.slots.enum.foldl (coherentGlobalSlot st d prims chIdx ch.basis)
        (tbl, st.seq.slmTargets ≠ [])).1
    else
      setLoc tbl ch.basis
        (ch.slots.enum.foldl
          (generalSlot st d prims chIdx (ch.addressing = "Global"))
          (tbl.loc ch.basis))
  if st.seq.slmTargets ≠ [] ∧ st.seq.slmTime ≠ [] then
    applyMask tbl1 ch.basis (st.seq.slmTime.getD 1 0) st.seq.slmTargets
  else Except.ok tbl1

/-- The channel loop of `_extract_samples`. -/
def extractChannels (st : SimState α) (d : NoiseDraws) (prims : Prims α) :
    List (ℕ × Channel) → SamplesTable → Except String SamplesTable
  | [], tbl => Except.ok tbl
  | (i, ch) :: rest, tbl =>
    match extractChannel st d prims tbl i ch with
    | Except.error e => Except.error e
    | Except.ok tbl1 => extractChannels st d prims rest tbl1

/-- `_extract_samples`: reset the samples dictionary and populate it from
every declared channel. -/
def extract_samples (st : SimState α) (d : NoiseDraws) (prims : Prims α) :
    Except String SamplesTable :=
  extractChannels st d prims st.seq.channels.enum SamplesTable.empty

/-! ### Hamiltonian assembly -/

/-- `_build_basis_and_op_matrices`: pick the basis name from the
interaction mode and which sample sets are non-empty. -/
def build_basis_name (st : SimState α) (tbl : SamplesTable) : String :=
  if st.interaction = "XY" then "XY"
  else if (tbl.glob "digital").isNone ∧ (tbl.loc "digital").isEmpty then
    "ground-rydberg"
  else if (tbl.glob "ground-rydberg").isNone ∧ (tbl.loc "ground-rydberg").isEmpty then
    "digital"
  else "all"

/-- Squared euclidean distance between two positions. -/
def distSq (p q : ℚ × ℚ) : ℚ := (p.1 - q.1) ^ 2 + (p.2 - q.2) ^ 2

/-- `make_vdw_term`: `0.5 * C6 / dist^6 * sigma_rr ⊗ sigma_rr`, the sixth
power of the distance computed exactly as the cube of the squared norm. -/
def make_vdw_term (st : SimState α) (a b : QubitId) : Except String (QMat α) :=
  let U : ℚ := st.seq.interactionCoeff / (2 * (distSq (st.seq.pos a) (st.seq.pos b)) ^ 3)
  (buildOp st [(OpSpec.name "sigma_rr", OpTarget.targets [a, b])]).map
    (smulM (ratC U))

/-- `make_xy_term`: `0.5 * C3 * (1 - 3 cos² θ) / dist³` on
`sigma_du ⊗ sigma_ud`, with the cosine defined as 0 when the projected
magnetic field is below `1e-8` in norm. -/
def make_xy_term (prims : Prims α) (st : SimState α) (a b : QubitId) :
    Except String (QMat α) :=
  let p1 := st.seq.pos a
  let p2 := st.seq.pos b
  let dist := prims.sqrtQ (distSq p1 p2)
  let magNorm := prims.sqrtQ (st.seq.magField.1 ^ 2 + st.seq.magField.2 ^ 2)
  let cosine : ℚ :=
    if magNorm < 1 / 100000000 then 0
    else ((p1.1 - p2.1) * st.seq.magField.1 + (p1.2 - p2.2) * st.seq.magField.2) /
      (dist * magNorm)
  let U : ℚ := st.seq.interactionCoeffXY * (1 - 3 * cosine ^ 2) / (2 * dist ^ 3)
  (buildOp st [(OpSpec.name "sigma_du", OpTarget.targets [a]),
    (OpSpec.name "sigma_ud", OpTarget.targets [b])]).map (smulM (ratC U))

/-- `itertools.combinations(qids, 2)` in order. -/
def pairsOf : List QubitId → List (QubitId × QubitId)
  | [] => []
  | x :: rest => rest.map (fun y => (x, y)) ++ pairsOf rest

/-- Number of badly prepared atoms (`sum(self._bad_atoms.values())`). -/
def badCount (st : SimState α) : ℕ :=
  (st.seq.qids.filter (fun q => st.badAtoms q)).length

/-- Number of well-prepared atoms under the SLM mask (subtracted from the
effective size in the masked interaction term). -/
def maskedGoodCount (st : SimState α) : ℕ :=
  (st.seq.slmTargets.filter (fun q => ¬ st.badAtoms q)).length

/-- The pair loop of `make_interaction_term`: skip pairs with a bad atom
or (in the masked variant) a masked atom, and accumulate the interaction
operator of the current mode. -/
def interactionFold (prims : Prims α) (st : SimState α) (masked : Bool) :
    List (QubitId × QubitId) → QMat α → Except String (QMat α)
  | [], acc => Except.ok acc
  | (a, b) :: rest, acc =>
    if st.badAtoms a ∨ st.badAtoms b ∨
        (masked ∧ (a ∈ st.seq.slmTargets ∨ b ∈ st.seq.slmTargets)) then
      interactionFold prims st masked rest acc
    else
      match (if st.interaction = "XY" then make_xy_term prims st a b
        else make_vdw_term st a b) with
      | Except.error e => Except.error e
      | Except.ok m => interactionFold prims st masked rest (addM acc m)

/-- `make_interaction_term`: in the masked variant, return the zero
operator when fewer than 2 good unmasked qubits remain; otherwise sum the
pair terms starting from `0`. -/
def make_interaction_term (prims : Prims α) (st : SimState α) (masked : Bool) :
    Except String (QMat α) :=
  if masked ∧ st.seq.qids.length - badCount st - maskedGoodCount st < 2 then
    (buildOp st [(OpSpec.name "I", OpTarget.global)]).map (smulM 0)
  else interactionFold prims st masked (pairsOf st.seq.qids) zeroM

/-- The operator names used by `build_coeffs_ops` for each basis. -/
def opIds (basis : String) : List String :=
  if basis = "ground-rydberg" then ["sigma_gr", "sigma_rr"]
  else if basis = "digital" then ["sigma_hg", "sigma_gg"]
  else if basis = "XY" then ["sigma_du", "sigma_dd"] else []

/-- The two coefficient series of one entry:
`0.5 * amp * exp(-1j * phase)` and `-0.5 * det`. -/
def coeffPair (prims : Prims α) (tr : SampleTriple) : List (ℕ → α) :=
  [fun t => ratC (tr.amp t / 2) * prims.cexp (tr.phase t),
    fun t => ratC (-(tr.det t) / 2)]

/-- `np.any(coeff != 0)` over the full duration. -/
def anyNonzero (T : ℕ) (f : ℕ → α) : Bool :=
  (List.range T).any (fun t => decide (f t ≠ 0))

/-- Shared term constructor of `build_coeffs_ops`: for each
`(op_id, coeff)` pair with a not-identically-zero coefficient, build the
operator and pair it with the decimated coefficient array. -/
def termsFromPairs (st : SimState α) (mk : String → Except String (QMat α)) :
    List (String × (ℕ → α)) → Except String (List (HTerm α))
  | [] => Except.ok []
  | (opid, coeff) :: rest =>
    if anyNonzero st.seq.duration coeff then
      match mk opid with
      | Except.error e => Except.error e
      | Except.ok m =>
        (termsFromPairs st mk rest).map
          (fun ts => HTerm.timeDep m (adaptArray st.samplingRate st.seq.duration coeff) :: ts)
    else termsFromPairs st mk rest

/-- `build_coeffs_ops` for `Global` addressing: one term pair shared by
all qubits, built on the global operator. -/
def buildCoeffsGlobal (prims : Prims α) (st : SimState α) (basis : String) :
    Except String (List (HTerm α)) :=
  match st.samples.glob basis with
  | none => Except.ok []
  | some tr =>
    termsFromPairs st (fun opid => buildOp st [(OpSpec.name opid, OpTarget.global)])
      ((opIds basis).zip (coeffPair prims tr))

/-- `build_coeffs_ops` for `Local` addressing: one term pair per qubit
entry, in dictionary order. -/
def buildCoeffsLocal (prims : Prims α) (st : SimState α) (basis : String) :
    Except String (List (HTerm α)) :=
  (st.samples.loc basis).foldlM (fun acc p =>
    (termsFromPairs st
        (fun opid => buildOp st [(OpSpec.name opid, OpTarget.targets [p.1])])
        ((opIds basis).zip (coeffPair prims p.2))).map
      (fun ts => acc ++ ts)) []

/-- The bases iterated by the samples dictionary of the current mode. -/
def basesOf (inter : String) : List String :=
  if inter = "XY" then ["XY"] else ["ground-rydberg", "digital"]

/-- The time-dependent driving terms: all `(addr, basis)` combinations with
non-empty samples, `Global` entries first (python dict iteration order). -/
def driveTerms (prims : Prims α) (st : SimState α) :
    Except String (List (HTerm α)) :=
  match (basesOf st.interaction).foldlM (fun acc b =>
      if (st.samples.glob b).isSome then
        (buildCoeffsGlobal prims st b).map (fun ts => acc ++ ts)
      else pure acc) [] with
  | Except.error e => Except.error e
  | Except.ok gts =>
    (basesOf st.interaction).foldlM (fun acc b =>
      if ¬ (st.samples.loc b).isEmpty then
        (buildCoeffsLocal prims st b).map (fun ts => acc ++ ts)
      else pure acc) gts

/-- The time-independent part of `qobj_list`: the interaction term, split
into two step-gated components when an SLM mask interval exists. -/
def interactionTerms (prims : Prims α) (st : SimState α) :
    Except String (List (HTerm α)) :=
  if st.seq.slmTime ≠ [] then
    match make_interaction_term prims st false with
    | Except.error e => Except.error e
    | Except.ok unmasked =>
      match make_interaction_term prims st true with
      | Except.error e => Except.error e
      | Except.ok masked =>
        Except.ok [HTerm.timeDep unmasked
            (adaptArray st.samplingRate st.seq.duration
              (fun t => ratC (if t < st.seq.slmTime.getD 1 0 then 0 else 1))),
          HTerm.timeDep masked
            (adaptArray st.samplingRate st.seq.duration
              (fun t => ratC (1 - (if t < st.seq.slmTime.getD 1 0 then 0 else 1))))]
  else
    (make_interaction_term prims st false).map (fun m => [HTerm.const m])

/-- Assembly of `qobj_list`: the (possibly SLM-gated) interaction term
when the basis is not digital and at least two atoms are well prepared,
then the driving terms; an empty list is replaced by the zero operator. -/
def buildTerms (prims : Prims α) (st : SimState α) :
    Except String (List (HTerm α)) :=
  match (if bnameD st ≠ "digital" ∧ 1 < st.seq.qids.length - badCount st
      then interactionTerms prims st else Except.ok []) with
  | Except.error e => Except.error e
  | Except.ok base =>
    match driveTerms prims st with
    | Except.error e => Except.error e
    | Except.ok drive =>
      if (base ++ drive).isEmpty then
        (buildOp st [(OpSpec.name "I", OpTarget.global)]).map
          (fun m => [HTerm.const (smulM 0 m)])
      else Except.ok (base ++ drive)

/-- Evaluation of one `qobj_list` term at coarse-grid index `k`. -/
def termAt (k : ℕ) : HTerm α → QMat α
  | HTerm.const m => m
  | HTerm.timeDep m cs => smulM (cs.getD k 0) m

/-- The stored Hamiltonian evaluated at coarse-grid index `k`:
`ham = QobjEvo(qobj_list); ham = ham + ham.dag()` (the `compress()` call
only merges the representation and changes no value). -/
def hamAt (terms : List (HTerm α)) (k : ℕ) : QMat α :=
  addM (sumM (terms.map (termAt k))) (dagM (sumM (terms.map (termAt k))))

/-- The `hasattr` check of `_construct_hamiltonian`: the basis is built
only once, on the first construction. -/
def ensureBasis (st : SimState α) : SimState α :=
  if st.basisName = none then
    {st with basisName := some (build_basis_name st st.samples)}
  else st

/-- `_construct_hamiltonian`: optionally redraw the noise and re-extract
the samples, build the basis once if absent, then assemble `qobj_list`. -/
def construct_hamiltonian (prims : Prims α) (st : SimState α) (d : NoiseDraws)
    (updateAndExtract : Bool) : Except String (SimState α) :=
  match (if updateAndExtract then
      (extract_samples (update_noise st d) d prims).map
        (fun tbl => {update_noise st d with samples := tbl})
    else Except.ok st) with
  | Except.error e => Except.error e
  | Except.ok st1 =>
    match buildTerms prims (ensureBasis st1) with
    | Except.error e => Except.error e
    | Except.ok terms => Except.ok {ensureBasis st1 with hamTerms := terms}

/-! ### Configuration handling (`set_config`) -/

/-- `SUPPORTED_NOISE` per interaction mode. -/
def supportedNoise (inter : String) : List String :=
  if inter = "XY" then ["SPAM"] else ["dephasing", "doppler", "amplitude", "SPAM"]

/-- The collapse operators installed under dephasing noise: a scaled
identity plus, per qubit, `k * (sigma_rr - sigma_gg)` with
`k = sqrt(prob * (1-prob)^(n-1))` and `prob = dephasing_prob / 2`. -/
def collapse_ops_of (prims : Prims α) (st : SimState α) :
    Except String (List (QMat α)) := do
  let prob := st.config.dephasingProb / 2
  let n := st.seq.qids.length
  let k := prims.sqrtQ (prob * (1 - prob) ^ (n - 1))
  let iop ← resolveOp (registry st) (OpSpec.name "I")
  let first := smulM (ratC (prims.sqrtQ ((1 - prob) ^ n)))
    (tensorOps (List.replicate n iop))
  let rest ← st.seq.qids.mapM (fun q => do
    let a ← buildOp st [(OpSpec.name "sigma_rr", OpTarget.targets [q])]
    let b ← buildOp st [(OpSpec.name "sigma_gg", OpTarget.targets [q])]
    pure (smulM (ratC k) (subM a b)))
  pure (first :: rest)

/-- The state mutations `set_config` performs before reconstructing the
Hamiltonian: install the new config and reset the noise state of any noise
type that is now disabled. -/
def set_config_pre (st : SimState α) (cfg : SimConfig) : SimState α :=
  let st1 : SimState α := {st with config := cfg}
  let st2 : SimState α :=
    if ¬ ("SPAM" ∈ cfg.noise ∧ 0 < cfg.eta) then
      {st1 with badAtoms := fun _ => false}
    else st1
  if "doppler" ∉ cfg.noise then {st2 with dopplerDetune := fun _ => 0} else st2

/-- `set_config`, with explicit recursion fuel.  The source recurses into
`set_config(prev_config)` to roll the configuration back when dephasing is
requested in a digital- or all-basis; the recursion depth is 1 in every
reachable scenario (a previously accepted config cannot fail the dephasing
check again), and the fuel-exhaustion answer models the non-termination
the source would exhibit on an unreachable ping-pong.  The returned pair
is the mutated object state and the raised error, if any. -/
def set_config_fuel (prims : Prims α) (d : ℕ → NoiseDraws) :
    ℕ → SimState α → SimConfig → SimState α × Option String
  | 0, st, _ => (st, some "maximum recursion depth exceeded")
  | fuel + 1, st, cfg =>
    if ¬ (∀ x ∈ cfg.noise, x ∈ supportedNoise st.interaction) then
      (st, some "Interaction mode does not support simulation of these noise types")
    else
      let prev := st.config
      match construct_hamiltonian prims (set_config_pre st cfg) (d fuel) true with
      | Except.error e => (set_config_pre st cfg, some e)
      | Except.ok st1 =>
        if "dephasing" ∈ cfg.noise then
          if bnameD st1 = "digital" ∨ bnameD st1 = "all" then
            ((set_config_fuel prims d fuel st1 prev).1,
              some "Cannot include dephasing noise in digital- or all-basis.")
          else
            match collapse_ops_of prims st1 with
            | Except.error e => (st1, some e)
            | Except.ok ops => ({st1 with collapseOps := ops}, none)
        else (st1, none)

/-- `Simulation.set_config` (fuel 2 suffices for every scenario with a
valid previous configuration). -/
def set_config (prims : Prims α) (d : ℕ → NoiseDraws) (st : SimState α)
    (cfg : SimConfig) : SimState α × Option String :=
  set_config_fuel prims d 2 st cfg

/-- Executable success condition for the two Hamiltonian reconstructions
a rolled-back `set_config` call performs. -/
def set_config_path_ok (prims : Prims α) (d : ℕ → NoiseDraws)
    (st : SimState α) (cfg : SimConfig) : Bool :=
  match construct_hamiltonian prims (set_config_pre st cfg) (d 1) true with
  | Except.error _ => false
  | Except.ok st1 =>
    (construct_hamiltonian prims (set_config_pre st1 st.config) (d 0) true).isOk

/-! ### Run orchestration -/

/-- Kronecker product of state vectors (`qutip.tensor` on kets). -/
def kron (u v : List α) : List α :=
  u.flatMap (fun x => v.map (fun y => x * y))

/-- `qutip.basis(d, i)`. -/
def basisKet (d i : ℕ) : List α :=
  (List.range d).map (fun j => if j = i then 1 else 0)

/-- `qutip.tensor` over a list of kets. -/
def tensorKet (l : List (List α)) : List α := l.foldl kron [1]

/-- The all-ground comparison state built inline by the SPAM guard of
`run`: `qutip.tensor([self.basis["g"] for _ in range(size)])`.  In XY mode
the basis dictionary has keys `u`/`d` only, so the lookup of `"g"` itself
raises (`KeyError`). -/
def ground_ket (st : SimState α) : Except String (List α) :=
  match st.basisName with
  | none => Except.error "AttributeError: basis"
  | some name =>
    match (basisStates name).findIdx? (fun b => b = "g") with
    | none => Except.error "KeyError: g"
    | some gi =>
      Except.ok (tensorKet (List.replicate st.seq.qids.length
        (basisKet (dimOf name) gi)))

/-- The fail-fast guard of `run`: under SPAM noise with `eta > 0`, an
initial state different from the all-ground tensor raises before any
solver call. -/
def spam_guard (st : SimState α) : Except String Unit :=
  if "SPAM" ∈ st.config.noise then
    if 0 < st.config.eta then
      match ground_ket st with
      | Except.error e => Except.error e
      | Except.ok g =>
        if st.initialState ≠ g then
          Except.error "Cannot combine state preparation errors with an initial state different from the ground."
        else Except.ok ()
    else Except.ok ()
  else Except.ok ()

/-- One drawn bad-atom bitstring: `np.random.uniform(size=n) < eta`. -/
def drawConfig (st : SimState α) (u : ℕ → ℚ) : List Bool :=
  (List.range st.seq.qids.length).map (fun k => decide (u k < st.config.eta))

/-- The `runs` bitstrings drawn in Case B. -/
def caseBDraws (st : SimState α) (uB : ℕ → ℕ → ℚ) : List (List Bool) :=
  (List.range st.config.runs).map (fun i => drawConfig st (uB i))

/-- `Counter(...).most_common()`: the distinct drawn configurations with
their multiplicities (the histogram aggregation below is invariant under
the ordering, so dedup order is used). -/
def caseBConfigs (st : SimState α) (uB : ℕ → ℕ → ℚ) :
    List (List Bool × ℕ) :=
  (caseBDraws st uB).dedup.map
    (fun c => (c, (caseBDraws st uB).count c))

/-- Manual loading of a drawn preparation configuration into `_bad_atoms`
(`dict(zip(self._qid_index, ...))`). -/
def loadBadAtoms (st : SimState α) (c : List Bool) : SimState α :=
  {st with badAtoms := fun q => c.getD (qidIndex st.seq.qids q) false}

/-- The outcome of `run`: either the coherent trajectory returned directly
(Case A) or the normalized per-evaluation-time outcome distributions of a
`NoisyResults`. -/
inductive RunResult (R Ω : Type) where
  | coherent (r : R)
  | noisy (probs : List (Ω → ℚ))

/-- The observable behaviour of one `run` call: its returned value or
raised error, together with the number of completed solver invocations. -/
structure RunOut (R Ω : Type) where
  result : Except String (RunResult R Ω)
  solves : ℕ

variable {R Ω : Type}

/-- The zero `Counter` per evaluation time. -/
def zeroCounts (evalTs : List ℚ) : List (Ω → ℕ) := evalTs.map (fun _ _ => 0)

/-- Pointwise accumulation of per-time outcome histograms. -/
def addCounts (a b : List (Ω → ℕ)) : List (Ω → ℕ) :=
  a.zipWith (fun f g o => f o + g o) b

/-- The realization loop of `run`: per iteration, rebuild the Hamiltonian
(`stepF`), invoke the solver once, and sample every evaluation time with
`samples_per_run * reps` samples into the accumulating histograms.  An
exception aborts the loop.  Returns the status, the histograms, and the
number of completed solver invocations. -/
def runLoop (solve : SimState α → R) (sample : R → ℚ → ℕ → Ω → ℕ)
    (evalTs : List ℚ) (spr : ℕ) :
    List (ℕ × (SimState α → Except String (SimState α))) → SimState α →
      Except String Unit × List (Ω → ℕ) × ℕ
  | [], _ => (Except.ok (), zeroCounts evalTs, 0)
  | (reps, stepF) :: rest, st =>
    match stepF st with
    | Except.error e => (Except.error e, zeroCounts evalTs, 0)
    | Except.ok st1 =>
      let res := solve st1
      let cnts : List (Ω → ℕ) :=
        evalTs.map (fun t => fun o => sample res t (spr * reps) o)
      match runLoop solve sample evalTs spr rest st1 with
      | (r, cs, n) => (r, addCounts cnts cs, n + 1)

/-- `Simulation.run`.  The solver (`qutip.sesolve`/`mesolve` wrapped in
`_run_solver`) and `CoherentResults.sample_state` are the external
propagator collaborators, passed as oracles `solve` and `sample`;
`uB` supplies the Case-B uniform draws (per run, per qubit index) and
`dC` the per-iteration noise draws of Case C (Case B reconstructs with
`update_and_extract=False`, which consumes no draws). -/
def runSim (prims : Prims α) (st : SimState α) (solve : SimState α → R)
    (sample : R → ℚ → ℕ → Ω → ℕ) (uB : ℕ → ℕ → ℚ) (dC : ℕ → NoiseDraws) :
    RunOut R Ω :=
  match spam_guard st with
  | Except.error e => ⟨Except.error e, 0⟩
  | Except.ok _ =>
    let iters : Option (List (ℕ × (SimState α → Except String (SimState α)))) :=
      if ∀ x ∈ st.config.noise, x = "dephasing" ∨ x = "SPAM" then
        if "SPAM" ∉ st.config.noise ∨ st.config.eta = 0 then none
        else
          some ((caseBConfigs st uB).map (fun p =>
            (p.2, fun s =>
              construct_hamiltonian prims (loadBadAtoms s p.1) (dC 0) false)))
      else
        some ((List.range st.config.runs).map (fun i =>
          (1, fun s => construct_hamiltonian prims s (dC i) true)))
    match iters with
    | none => ⟨Except.ok (RunResult.coherent (solve st)), 1⟩
    | some iters =>
      match runLoop solve sample st.evalTimes st.config.samplesPerRun iters st with
      | (Except.error e, _, n) => ⟨Except.error e, n⟩
      | (Except.ok _, counts, n) =>
        let nMeasures : ℕ := st.config.runs * st.config.samplesPerRun
        ⟨Except.ok (RunResult.noisy
          (counts.map (fun c => fun o => (c o : ℚ) / nMeasures))), n⟩

/-! ### Generic helper lemmas -/

lemma except_isOk_iff {ε β : Type} (e : Except ε β) :
    e.isOk = true ↔ ∃ a, e = Except.ok a := by
  cases e <;> simp [Except.isOk, Except.toBool]

instance {ε β : Type} [DecidableEq ε] [DecidableEq β] :
    DecidableEq (Except ε β) := fun a b =>
  match a, b with
  | Except.error x, Except.error y =>
    if h : x = y then isTrue (by rw [h])
    else isFalse (fun hc => h (Except.error.inj hc))
  | Except.error _, Except.ok _ => isFalse (fun hc => Except.noConfusion hc)
  | Except.ok _, Except.error _ => isFalse (fun hc => Except.noConfusion hc)
  | Except.ok x, Except.ok y =>
    if h : x = y then isTrue (by rw [h])
    else isFalse (fun hc => h (Except.ok.inj hc))

lemma linspace_mono_strict {s d : ℕ} (hd : 0 < d) (hs : d ≤ s) {i j : ℕ}
    (hij : i < j) : i * s / d < j * s / d := by
  have h1 : i * s + d ≤ j * s := by
    have h2 : (i + 1) * s ≤ j * s := by
      have := mul_le_mul_right' (show i + 1 ≤ j by omega) s
      simpa using this
    have h3 : i * s + s = (i + 1) * s := by ring
    omega
  have h4 : (i * s + d) / d ≤ j * s / d := Nat.div_le_div_right h1
  have h5 : (i * s + d) / d = i * s / d + 1 := Nat.add_div_right _ hd
  omega

/-! ### Claim C5: sampling-rate validation and the coarse grid -/

lemma linspaceInt_props {s num : ℕ} (h4 : 4 ≤ num) (hns : num - 1 ≤ s) :
    4 ≤ (linspaceInt s num).length ∧ (linspaceInt s num).Pairwise (· < ·) ∧
    (linspaceInt s num).head? = some 0 ∧ ∀ i ∈ linspaceInt s num, i ≤ s := by
  have hd : 0 < num - 1 := by omega
  refine ⟨by simpa [linspaceInt] using h4, ?_, ?_, ?_⟩
  · unfold linspaceInt
    exact List.Pairwise.map _ (fun a b hab => linspace_mono_strict hd hns hab)
      (List.pairwise_lt_range num)
  · obtain ⟨n, hn⟩ : ∃ n, num = n + 1 := ⟨num - 1, by omega⟩
    simp [linspaceInt, hn, List.range_succ_eq_map]
  · intro i hi
    obtain ⟨k, hk, rfl⟩ := List.mem_map.mp hi
    have hkd : k ≤ num - 1 := by
      have := List.mem_range.mp hk; omega
    have h1 : k * s / (num - 1) ≤ (num - 1) * s / (num - 1) :=
      Nat.div_le_div_right (mul_le_mul_right' hkd _)
    have h2 : (num - 1) * s / (num - 1) = s := Nat.mul_div_cancel_left _ hd
    omega

/-- C5: construction fails when the sampling rate is outside (0, 1] or when
the floor of `sampling_rate * duration` is below 4; whenever the rate is
accepted, the index grid of `_adapt_to_sampling_rate` has length at least
4, is strictly increasing, starts at index 0, and stays inside
`[0, duration)`. -/
theorem claim_C5 (rate : ℚ) (T : ℕ) :
    ((¬ (0 < rate ∧ rate ≤ 1) ∨ ⌊rate * (T : ℚ)⌋ < 4) →
      (samplingRateCheck rate T).isOk = false) ∧
    (samplingRateCheck rate T = Except.ok () →
      4 ≤ (adaptIndices rate T).length ∧
      (adaptIndices rate T).Pairwise (· < ·) ∧
      (adaptIndices rate T).head? = some 0 ∧
      ∀ i ∈ adaptIndices rate T, i < T) := by
  constructor
  · intro h
    unfold samplingRateCheck
    rcases h with h | h
    · rw [if_pos h]; rfl
    · by_cases h1 : ¬ (0 < rate ∧ rate ≤ 1)
      · rw [if_pos h1]; rfl
      · rw [if_neg h1, if_pos h]; rfl
  · intro hok
    have hcond : (0 < rate ∧ rate ≤ 1) ∧ ¬ (⌊rate * (T : ℚ)⌋ < 4) := by
      constructor
      · by_contra hc
        unfold samplingRateCheck at hok
        rw [if_pos hc] at hok
        exact Except.noConfusion hok
      · intro hc
        unfold samplingRateCheck at hok
        by_cases h1 : ¬ (0 < rate ∧ rate ≤ 1)
        · rw [if_pos h1] at hok; exact Except.noConfusion hok
        · rw [if_neg h1, if_pos hc] at hok; exact Except.noConfusion hok
    obtain ⟨⟨hpos, hle⟩, hfl⟩ := hcond
    have hfl4 : (4 : ℤ) ≤ ⌊rate * (T : ℚ)⌋ := by omega
    have hnum4 : 4 ≤ numGridPoints rate T := by
      have := (Int.le_toNat (by omega : (0 : ℤ) ≤ ⌊rate * (T : ℚ)⌋)).mpr hfl4
      simpa [numGridPoints] using this
    have hnumT : numGridPoints rate T ≤ T := by
      have hrT : rate * T ≤ (T : ℚ) := by
        calc rate * T ≤ 1 * T := mul_le_mul_of_nonneg_right hle (by positivity)
        _ = (T : ℚ) := one_mul _
      have h1 : ⌊rate * (T : ℚ)⌋ ≤ ⌊(T : ℚ)⌋ := Int.floor_mono hrT
      have h2 : ⌊(T : ℚ)⌋ = (T : ℤ) := Int.floor_natCast T
      have h3 : ⌊rate * (T : ℚ)⌋ ≤ (T : ℤ) := by omega
      simpa [numGridPoints] using Int.toNat_le.mpr h3
    have hT4 : 4 ≤ T := le_trans hnum4 hnumT
    have hmain := linspaceInt_props (s := T - 1) hnum4 (by omega)
    refine ⟨hmain.1, hmain.2.1, hmain.2.2.1, fun i hi => ?_⟩
    have := hmain.2.2.2 i hi
    omega

/-- Witness for C5: the rate 3/2 is rejected; the rate 1/2 over a duration
of 10 ns is accepted and yields a grid starting at index 0. -/
theorem claim_C5_witness :
    (samplingRateCheck (3/2 : ℚ) 10).isOk = false ∧
    (adaptIndices (1/2 : ℚ) 10).head? = some 0 := by
  refine ⟨(claim_C5 (3/2) 10).1 ?_, ((claim_C5 (1/2) 10).2 ?_).2.2.1⟩
  · left; norm_num
  · decide

/-! ### Claim C9: evaluation times -/

lemma foldl_min_le (l : List ℚ) (a : ℚ) :
    l.foldl min a ≤ a ∧ ∀ x ∈ l, l.foldl min a ≤ x := by
  induction l generalizing a with
  | nil => simp
  | cons b t ih =>
    simp only [List.foldl_cons]
    refine ⟨le_trans (ih (min a b)).1 (min_le_left a b), fun x hx => ?_⟩
    rcases List.mem_cons.mp hx with rfl | hx2
    · exact le_trans (ih (min a x)).1 (min_le_right a x)
    · exact (ih (min a b)).2 x hx2

lemma foldl_min_mem (l : List ℚ) (a : ℚ) : l.foldl min a ∈ a :: l := by
  induction l generalizing a with
  | nil => simp
  | cons b t ih =>
    simp only [List.foldl_cons]
    have h := ih (min a b)
    rcases List.mem_cons.mp h with h1 | h1
    · rcases min_choice a b with h2 | h2 <;> rw [h1, h2] <;> simp
    · exact List.mem_cons.mpr (Or.inr (List.mem_cons.mpr (Or.inr h1)))

lemma foldl_max_ge (l : List ℚ) (a : ℚ) :
    a ≤ l.foldl max a ∧ ∀ x ∈ l, x ≤ l.foldl max a := by
  induction l generalizing a with
  | nil => simp
  | cons b t ih =>
    simp only [List.foldl_cons]
    refine ⟨le_trans (le_max_left a b) (ih (max a b)).1, fun x hx => ?_⟩
    rcases List.mem_cons.mp hx with rfl | hx2
    · exact le_trans (le_max_right a x) (ih (max a x)).1
    · exact (ih (max a b)).2 x hx2

lemma foldl_max_mem (l : List ℚ) (a : ℚ) : l.foldl max a ∈ a :: l := by
  induction l generalizing a with
  | nil => simp
  | cons b t ih =>
    simp only [List.foldl_cons]
    have h := ih (max a b)
    rcases List.mem_cons.mp h with h1 | h1
    · rcases max_choice a b with h2 | h2 <;> rw [h1, h2] <;> simp
    · exact List.mem_cons.mpr (Or.inr (List.mem_cons.mpr (Or.inr h1)))

lemma sorted_getD_mono {l : List ℚ} (hs : List.Sorted (· ≤ ·) l) {i j : ℕ}
    (hij : i ≤ j) (hj : j < l.length) : l.getD i 0 ≤ l.getD j 0 := by
  rcases eq_or_lt_of_le hij with rfl | hlt
  · exact le_refl _
  · have hi : i < l.length := lt_trans hlt hj
    have h := List.Sorted.rel_get_of_lt hs (a := ⟨i, hi⟩) (b := ⟨j, hj⟩) hlt
    rwa [List.getD_eq_getElem l 0 hi, List.getD_eq_getElem l 0 hj]

lemma linspaceInt_pairwise_le (s num : ℕ) :
    (linspaceInt s num).Pairwise (· ≤ ·) := by
  unfold linspaceInt
  refine List.Pairwise.map _ (fun a b hab => ?_) (List.pairwise_lt_range num)
  exact Nat.div_le_div_right (mul_le_mul_right' (le_of_lt hab) _)

lemma linspaceInt_bound (s num : ℕ) (hd : 0 < num - 1) :
    ∀ i ∈ linspaceInt s num, i ≤ s := by
  intro i hi
  obtain ⟨k, hk, rfl⟩ := List.mem_map.mp hi
  have hkd : k ≤ num - 1 := by have := List.mem_range.mp hk; omega
  have h1 : k * s / (num - 1) ≤ (num - 1) * s / (num - 1) :=
    Nat.div_le_div_right (mul_le_mul_right' hkd _)
  have h2 : (num - 1) * s / (num - 1) = s := Nat.mul_div_cancel_left _ hd
  omega

lemma linspaceInt_zero_mem (s num : ℕ) (h : 0 < num) :
    0 ∈ linspaceInt s num := by
  unfold linspaceInt
  exact List.mem_map.mpr ⟨0, List.mem_range.mpr h, by simp⟩

lemma linspaceInt_last_mem (s num : ℕ) (h : 2 ≤ num) :
    s ∈ linspaceInt s num := by
  unfold linspaceInt
  refine List.mem_map.mpr ⟨num - 1, List.mem_range.mpr (by omega), ?_⟩
  exact Nat.mul_div_cancel_left _ (by omega)

/-- C9 (amended): for an explicit evaluation-time list that passes the
range checks, the result is sorted and contains both `0` and the duration;
for an accepted resampling fraction over a sorted sampling grid starting
at 0 and bounded by the duration, the result is sorted and contains `0`
and the duration provided the selected number of indices
`int(v * (len(sampling_times) + 1))` is at least 2 (for smaller fractions
the result can miss them, see the counterexample). -/
theorem claim_C9 :
    (∀ (sTimes : List ℚ) (dur v : ℚ) (res : List ℚ),
      sTimes.head? = some 0 → List.Sorted (· ≤ ·) sTimes →
      (∀ x ∈ sTimes, x ≤ dur) →
      2 ≤ (⌊v * ((sTimes.length + 1 : ℕ) : ℚ)⌋).toNat →
      evalTimesFloat sTimes dur v = Except.ok res →
      List.Sorted (· ≤ ·) res ∧ 0 ∈ res ∧ dur ∈ res) ∧
    (∀ (dur : ℚ) (ts res : List ℚ),
      evalTimesList dur ts = Except.ok res →
      List.Sorted (· ≤ ·) res ∧ 0 ∈ res ∧ dur ∈ res) := by
  constructor
  · intro sTimes dur v res hhead hsorted hle hnum hok
    unfold evalTimesFloat at hok
    by_cases hv : v > 1 ∨ v ≤ 0
    · rw [if_pos hv] at hok; exact Except.noConfusion hok
    rw [if_neg hv] at hok
    have hres : res = (linspaceInt ((sTimes ++ [dur]).length - 1)
        ((⌊v * (((sTimes ++ [dur]).length : ℕ) : ℚ)⌋).toNat)).map
        (fun i => (sTimes ++ [dur]).getD i 0) := (Except.ok.inj hok).symm
    obtain ⟨rest, hrest⟩ : ∃ rest, sTimes = 0 :: rest := by
      cases sTimes with
      | nil => exact Option.noConfusion hhead
      | cons a t => exact ⟨t, by rw [Option.some.inj hhead]⟩
    have hlen : (sTimes ++ [dur]).length = sTimes.length + 1 := by simp
    have hextsorted : List.Sorted (· ≤ ·) (sTimes ++ [dur]) := by
      refine List.pairwise_append.mpr ⟨hsorted, by simp, fun a ha b hb => ?_⟩
      rw [List.mem_singleton.mp hb]
      exact hle a ha
    have hnum2 : 2 ≤ (⌊v * (((sTimes ++ [dur]).length : ℕ) : ℚ)⌋).toNat := by
      rw [hlen]; exact hnum
    subst hres
    set num := (⌊v * (((sTimes ++ [dur]).length : ℕ) : ℚ)⌋).toNat with hnumdef
    set s := (sTimes ++ [dur]).length - 1 with hsdef
    have hslt : s < (sTimes ++ [dur]).length := by
      rw [hsdef, hlen]; omega
    have hbound : ∀ i ∈ linspaceInt s num, i < (sTimes ++ [dur]).length := by
      intro i hi
      have := linspaceInt_bound s num (by omega) i hi
      omega
    refine ⟨?_, ?_, ?_⟩
    · refine List.pairwise_map.mpr ?_
      refine List.Pairwise.imp_of_mem (fun ha hb hab => ?_)
        (linspaceInt_pairwise_le s num)
      exact sorted_getD_mono hextsorted hab (hbound _ hb)
    · have h0 := linspaceInt_zero_mem s num (by omega)
      have hmem : (sTimes ++ [dur]).getD 0 0 ∈
          (linspaceInt s num).map (fun i => (sTimes ++ [dur]).getD i 0) :=
        List.mem_map.mpr ⟨0, h0, rfl⟩
      have hg : (sTimes ++ [dur]).getD 0 0 = 0 := by
        rw [hrest]; rfl
      rwa [hg] at hmem
    · have hs := linspaceInt_last_mem s num hnum2
      have hmem : (sTimes ++ [dur]).getD s 0 ∈
          (linspaceInt s num).map (fun i => (sTimes ++ [dur]).getD i 0) :=
        List.mem_map.mpr ⟨s, hs, rfl⟩
      have hg : (sTimes ++ [dur]).getD s 0 = dur := by
        rw [List.getD_eq_getElem _ _ hslt]
        refine List.getElem_concat_length sTimes dur s ?_ _
        rw [hsdef, hlen]
        omega
      rwa [hg] at hmem
  · intro dur ts res hok
    cases ts with
    | nil => exact Except.noConfusion hok
    | cons t rest =>
      unfold evalTimesList at hok
      simp only at hok
      by_cases h1 : rest.foldl max t > dur
      · rw [if_pos h1] at hok; exact Except.noConfusion hok
      rw [if_neg h1] at hok
      by_cases h2 : rest.foldl min t < 0
      · rw [if_pos h2] at hok; exact Except.noConfusion hok
      rw [if_neg h2] at hok
      have hres := (Except.ok.inj hok).symm
      have hsorted0 : List.Sorted (· ≤ ·) ((t :: rest).mergeSort) :=
        List.sorted_mergeSort' _
      have htmax_mem : rest.foldl max t ∈ t :: rest := foldl_max_mem rest t
      have htmax_ge : ∀ x ∈ t :: rest, x ≤ rest.foldl max t := by
        intro x hx
        rcases List.mem_cons.mp hx with rfl | hx2
        · exact (foldl_max_ge rest x).1
        · exact (foldl_max_ge rest t).2 x hx2
      have htmin_mem : rest.foldl min t ∈ t :: rest := foldl_min_mem rest t
      have htmin_le : ∀ x ∈ t :: rest, rest.foldl min t ≤ x := by
        intro x hx
        rcases List.mem_cons.mp hx with rfl | hx2
        · exact (foldl_min_le rest x).1
        · exact (foldl_min_le rest t).2 x hx2
      have hge0 : ∀ x ∈ (t :: rest).mergeSort, (0:ℚ) ≤ x := fun x hx =>
        le_trans (not_lt.mp h2) (htmin_le x (List.mem_mergeSort.mp hx))
      have hledur : ∀ x ∈ (t :: rest).mergeSort, x ≤ dur := fun x hx =>
        le_trans (htmax_ge x (List.mem_mergeSort.mp hx)) (not_lt.mp h1)
      subst hres
      set sortedL := (t :: rest).mergeSort with hsortdef
      have hWsorted : List.Sorted (· ≤ ·)
          (if rest.foldl min t > 0 then (0:ℚ) :: sortedL else sortedL) := by
        split_ifs with h3
        · exact List.sorted_cons.mpr ⟨hge0, hsorted0⟩
        · exact hsorted0
      have hWledur : ∀ x ∈ (if rest.foldl min t > 0 then (0:ℚ) :: sortedL else sortedL),
          x ≤ dur := by
        split_ifs with h3
        · intro x hx
          rcases List.mem_cons.mp hx with rfl | hx2
          · exact le_trans (le_trans (not_lt.mp h2) (htmin_le _ htmax_mem)) (not_lt.mp h1)
          · exact hledur x hx2
        · exact hledur
      have hW0 : (0:ℚ) ∈ (if rest.foldl min t > 0 then (0:ℚ) :: sortedL else sortedL) := by
        split_ifs with h3
        · exact List.mem_cons_self 0 sortedL
        · have h4 : rest.foldl min t = 0 := le_antisymm (not_lt.mp h3) (not_lt.mp h2)
          rw [← h4]
          exact List.mem_mergeSort.mpr htmin_mem
      by_cases h4 : rest.foldl max t < dur
      · rw [if_pos h4]
        refine ⟨?_, ?_, ?_⟩
        · refine List.pairwise_append.mpr ⟨hWsorted, by simp, fun a ha b hb => ?_⟩
          rw [List.mem_singleton.mp hb]
          exact hWledur a ha
        · exact List.mem_append.mpr (Or.inl hW0)
        · exact List.mem_append.mpr (Or.inr (by simp))
      · rw [if_neg h4]
        have hdt : dur = rest.foldl max t := le_antisymm (not_lt.mp h4) (not_lt.mp h1)
        refine ⟨hWsorted, hW0, ?_⟩
        rw [hdt]
        split_ifs with h3
        · exact List.mem_cons.mpr (Or.inr (List.mem_mergeSort.mpr htmax_mem))
        · exact List.mem_mergeSort.mpr htmax_mem

/-- Counterexample to C9 as stated: the fraction 1/5 is accepted over a
4-point sampling grid of a 4 ns sequence, yet the resulting
evaluation-time array is just `[0]`, which does not contain the duration
(and for even smaller fractions the array is empty). -/
theorem claim_C9_counterexample :
    evalTimesFloat [0, 1/1000, 2/1000, 3/1000] (4/1000) (1/5) = Except.ok [0] ∧
    ¬ ((4/1000 : ℚ) ∈ ([0] : List ℚ)) := by
  constructor
  · decide
  · decide

/-- Witness for C9 (amended): a fraction of 1/2 keeps both endpoints; an
explicit interior time list is augmented with both endpoints. -/
theorem claim_C9_witness :
    ((0:ℚ) ∈ [(0:ℚ), 4/1000] ∧ (4/1000 : ℚ) ∈ [(0:ℚ), 4/1000]) ∧
    ((0:ℚ) ∈ [(0:ℚ), 1/1000, 4/1000] ∧ (4/1000:ℚ) ∈ [(0:ℚ), 1/1000, 4/1000]) := by
  constructor
  · have h := claim_C9.1 [0, 1/1000, 2/1000, 3/1000] (4/1000) (1/2) [0, 4/1000]
      (by decide) (by decide) (by decide) (by decide) (by decide)
    exact ⟨h.2.1, h.2.2⟩
  · have h := claim_C9.2 (4/1000) [1/1000] [0, 1/1000, 4/1000] (by decide)
    exact ⟨h.2.1, h.2.2⟩

/-! ### Claims C7 and C10: build_operator -/

lemma lookupOp_I (bname : String) :
    lookupOp (opMatrix bname : List (String × Op1 α)) "I" =
      some (idOp (dimOf bname)) := by
  unfold opMatrix dimOf basisStates lookupOp
  split_ifs <;> rfl

lemma resolveOp_I (bname : String) :
    resolveOp (opMatrix bname : List (String × Op1 α)) (OpSpec.name "I") =
      Except.ok (idOp (dimOf bname)) := by
  simp only [resolveOp, lookupOp_I]

lemma dedup_length_lt_iff {qs : List QubitId} :
    qs.dedup.length < qs.length ↔ ¬ qs.Nodup := by
  constructor
  · intro h hn
    rw [List.Nodup.dedup hn] at h
    omega
  · intro hn
    rcases lt_or_eq_of_le (List.Sublist.length_le (List.dedup_sublist qs)) with h | h
    · exact h
    · refine absurd ?_ hn
      have heq := List.Sublist.eq_of_length (List.dedup_sublist qs) h
      rw [← heq]
      exact List.nodup_dedup qs

lemma applyPair_isOk (qids : List QubitId) (opm : List (String × Op1 α))
    (ol : List (Op1 α)) (spec : OpSpec α) (qs : List QubitId) :
    (applyPair qids opm ol spec qs).isOk =
      pairValid qids opm (spec, OpTarget.targets qs) := by
  unfold applyPair pairValid
  by_cases h1 : qs.dedup.length < qs.length
  · rw [if_pos h1]
    simp [Except.isOk, Except.toBool, h1]
  · rw [if_neg h1]
    by_cases h2 : ∀ q ∈ qs, q ∈ qids
    · rw [if_neg (not_not_intro h2)]
      cases hres : resolveOp opm spec <;>
        simp [Except.isOk, Except.toBool, Except.map, h1, h2, hres] <;>
        exact h2
    · rw [if_pos h2]
      simp [Except.isOk, Except.toBool, h1, h2]

lemma buildOperatorGo_isOk (qids : List QubitId) (opm : List (String × Op1 α))
    (iop : Op1 α) (ops : List (OpSpec α × OpTarget))
    (hng : ∀ p ∈ ops, p.2 ≠ OpTarget.global) :
    ∀ ol, ((buildOperatorGo qids opm iop ops ol).isOk = true ↔
      ∀ p ∈ ops, pairValid qids opm p = true) := by
  induction ops with
  | nil =>
    intro ol
    simp [buildOperatorGo, Except.isOk, Except.toBool]
  | cons hd tl ih =>
    intro ol
    obtain ⟨spec, tgt⟩ := hd
    cases tgt with
    | global => exact absurd rfl (hng _ (List.mem_cons_self _ _))
    | targets qs =>
      simp only [buildOperatorGo]
      cases happ : applyPair qids opm ol spec qs with
      | error e =>
        have hv : pairValid qids opm (spec, OpTarget.targets qs) = false := by
          rw [← applyPair_isOk qids opm ol spec qs, happ]
          rfl
        constructor
        · intro hfalse
          exact absurd hfalse (by simp [Except.isOk, Except.toBool])
        · intro hall
          have := hall _ (List.mem_cons_self _ _)
          rw [hv] at this
          exact Bool.noConfusion this
      | ok ol1 =>
        have hv : pairValid qids opm (spec, OpTarget.targets qs) = true := by
          rw [← applyPair_isOk qids opm ol spec qs, happ]
          rfl
        rw [ih (fun p hp => hng p (List.mem_cons_of_mem _ hp)) ol1]
        simp [hv]

lemma set_replicate_self (n i : ℕ) (a : Op1 α) :
    (List.replicate n a).set i a = List.replicate n a := by
  induction n generalizing i with
  | zero => rfl
  | succ k ih =>
    cases i with
    | zero => simp [List.replicate_succ]
    | succ i2 => simp [List.replicate_succ, ih i2]

lemma foldl_set_replicate (qs : List QubitId) (qids : List QubitId) (n : ℕ)
    (a : Op1 α) :
    qs.foldl (fun acc q => acc.set (qidIndex qids q) a) (List.replicate n a) =
      List.replicate n a := by
  induction qs with
  | nil => rfl
  | cons q t ih => simp [set_replicate_self, ih]

lemma build_operator_eq (qids : List QubitId) (opm : List (String × Op1 α))
    (operations : List (OpSpec α × OpTarget)) (iop : Op1 α)
    (h : resolveOp opm (OpSpec.name "I") = Except.ok iop) :
    build_operator qids opm operations =
      buildOperatorGo qids opm iop operations
        (List.replicate qids.length iop) := by
  unfold build_operator
  rw [h]

/-- C7 (amended): for an operations list containing no "global" marker,
identity placements with valid targets return the identity on the full
N-qubit space, and `build_operator` succeeds exactly when every pair has
a duplicate-free target list of known qubit ids and a resolvable
operator.  (As stated the claim fails for lists with a "global" pair and
for repetitions across separate pairs: see the counterexample.) -/
theorem claim_C7 (qids : List QubitId) (bname : String) :
    (∀ qss : List (List QubitId),
      (∀ qs ∈ qss, qs.Nodup ∧ ∀ q ∈ qs, q ∈ qids) →
      build_operator qids (opMatrix bname : List (String × Op1 α))
          (qss.map (fun qs => (OpSpec.name "I", OpTarget.targets qs)))
        = Except.ok (fullIdentity qids.length (dimOf bname))) ∧
    (∀ ops : List (OpSpec α × OpTarget),
      (∀ p ∈ ops, p.2 ≠ OpTarget.global) →
      ((build_operator qids (opMatrix bname) ops).isOk = true ↔
        ∀ p ∈ ops, pairValid qids (opMatrix bname) p = true)) := by
  constructor
  · intro qss hvalid
    rw [build_operator_eq qids (opMatrix bname) _ _ (resolveOp_I bname)]
    have main : ∀ qss2 : List (List QubitId),
        (∀ qs ∈ qss2, qs.Nodup ∧ ∀ q ∈ qs, q ∈ qids) →
        buildOperatorGo qids (opMatrix bname) (idOp (dimOf bname))
          (qss2.map (fun qs => ((OpSpec.name "I" : OpSpec α), OpTarget.targets qs)))
          (List.replicate qids.length (idOp (dimOf bname))) =
        Except.ok (fullIdentity qids.length (dimOf bname)) := by
      intro qss2
      induction qss2 with
      | nil => intro _; rfl
      | cons qs tl ih =>
        intro hvalid2
        have hqs := hvalid2 qs (List.mem_cons_self _ _)
        simp only [List.map_cons, buildOperatorGo]
        have happ : applyPair qids (opMatrix bname : List (String × Op1 α))
            (List.replicate qids.length (idOp (dimOf bname)))
            (OpSpec.name "I") qs =
            Except.ok (List.replicate qids.length (idOp (dimOf bname))) := by
          unfold applyPair
          rw [if_neg (by rw [dedup_length_lt_iff]; exact not_not_intro hqs.1),
            if_neg (not_not_intro hqs.2), resolveOp_I]
          simp [Except.map, foldl_set_replicate]
        rw [happ]
        exact ih (fun qs2 h2 => hvalid2 qs2 (List.mem_cons_of_mem _ h2))
    exact main qss hvalid
  · intro ops hng
    rw [build_operator_eq qids (opMatrix bname) _ _ (resolveOp_I bname)]
    exact buildOperatorGo_isOk qids (opMatrix bname) (idOp (dimOf bname)) ops hng
      (List.replicate qids.length (idOp (dimOf bname)))

/-- Counterexample to C7 as stated: a list with a global pair followed by
an unknown qubit id succeeds instead of raising, and applying the same
operator twice to the same qubit through two separate pairs succeeds
instead of raising the duplicate error. -/
theorem claim_C7_counterexample :
    (build_operator [0, 1] (opMatrix "ground-rydberg" : List (String × Op1 ℚ))
        [(OpSpec.name "I", OpTarget.global),
          (OpSpec.name "I", OpTarget.targets [5])]).isOk = true ∧
    (build_operator [0, 1] (opMatrix "ground-rydberg" : List (String × Op1 ℚ))
        [(OpSpec.name "sigma_rr", OpTarget.targets [0]),
          (OpSpec.name "sigma_rr", OpTarget.targets [0])]).isOk = true := by
  exact ⟨rfl, rfl⟩

/-- Witness for C7 (amended): distinct identity placements on a two-qubit
register give the full identity; a duplicated id inside one target list is
rejected. -/
theorem claim_C7_witness :
    build_operator [0, 1] (opMatrix "ground-rydberg" : List (String × Op1 ℚ))
        [(OpSpec.name "I", OpTarget.targets [0]),
          (OpSpec.name "I", OpTarget.targets [1])]
      = Except.ok (fullIdentity 2 2) ∧
    (build_operator [0, 1] (opMatrix "ground-rydberg" : List (String × Op1 ℚ))
        [(OpSpec.name "sigma_rr", OpTarget.targets [0, 0])]).isOk = false := by
  constructor
  · exact ((@claim_C7 ℚ _ _ _ _ [0, 1] "ground-rydberg").1 [[0], [1]] (by decide))
  · have h := (@claim_C7 ℚ _ _ _ _ [0, 1] "ground-rydberg").2
      [(OpSpec.name "sigma_rr", OpTarget.targets [0, 0])] (by decide)
    have hpv : pairValid [0, 1] (opMatrix "ground-rydberg" : List (String × Op1 ℚ))
        (OpSpec.name "sigma_rr", OpTarget.targets [0, 0]) = false := by decide
    cases hb : (build_operator [0, 1]
        (opMatrix "ground-rydberg" : List (String × Op1 ℚ))
        [(OpSpec.name "sigma_rr", OpTarget.targets [0, 0])]).isOk
    · rfl
    · have hall := h.mp hb
      have := hall _ (List.mem_cons_self _ _)
      rw [hpv] at this
      exact Bool.noConfusion this

lemma mapM_ok {β γ : Type} (f : β → Except String γ) (g : β → γ) (l : List β)
    (h : ∀ a ∈ l, f a = Except.ok (g a)) : l.mapM f = Except.ok (l.map g) := by
  induction l with
  | nil => rfl
  | cons a t ih =>
    rw [List.mapM_cons, h a (List.mem_cons_self _ _),
      ih (fun b hb => h b (List.mem_cons_of_mem _ hb))]
    rfl

/-- C10 (amended): when every pair before the first global-targeted pair
passes validation and the global pair's operator resolves, the function
returns only the sum over the register of that operator placed at each
qubit in turn, with identity elsewhere — the placements of every other
pair, before or after, are discarded. -/
theorem claim_C10 (qids : List QubitId) (bname : String)
    (pre : List (OpSpec α × OpTarget)) (spec : OpSpec α)
    (rest : List (OpSpec α × OpTarget)) (m : Op1 α)
    (hpre : ∀ p ∈ pre, p.2 ≠ OpTarget.global ∧
      pairValid qids (opMatrix bname) p = true)
    (hm : resolveOp (opMatrix bname : List (String × Op1 α)) spec =
      Except.ok m) :
    build_operator qids (opMatrix bname)
        (pre ++ (spec, OpTarget.global) :: rest) =
      Except.ok (sumM (qids.map (fun q =>
        tensorOps ((List.replicate qids.length (idOp (dimOf bname))).set
          (qidIndex qids q) m)))) := by
  rw [build_operator_eq qids (opMatrix bname) _ _ (resolveOp_I bname)]
  have hglob : globalSum qids (opMatrix bname) (idOp (dimOf bname)) spec =
      Except.ok (sumM (qids.map (fun q =>
        tensorOps ((List.replicate qids.length (idOp (dimOf bname))).set
          (qidIndex qids q) m)))) := by
    unfold globalSum
    rw [mapM_ok _ (fun q => tensorOps ((List.replicate qids.length
        (idOp (dimOf bname))).set (qidIndex qids q) m)) qids ?hall]
    · rfl
    case hall =>
      intro q hq
      unfold buildSingle applyPair
      rw [if_neg (by simp), if_neg (not_not_intro (by simpa using hq)), hm]
      rfl
  have main : ∀ (pre2 : List (OpSpec α × OpTarget)),
      (∀ p ∈ pre2, p.2 ≠ OpTarget.global ∧
        pairValid qids (opMatrix bname) p = true) →
      ∀ ol, buildOperatorGo qids (opMatrix bname) (idOp (dimOf bname))
        (pre2 ++ (spec, OpTarget.global) :: rest) ol =
        globalSum qids (opMatrix bname) (idOp (dimOf bname)) spec := by
    intro pre2
    induction pre2 with
    | nil => intro _ ol; rfl
    | cons hd tl ih =>
      intro hpre2 ol
      obtain ⟨spec2, tgt2⟩ := hd
      cases tgt2 with
      | global => exact absurd rfl (hpre2 _ (List.mem_cons_self _ _)).1
      | targets qs =>
        simp only [List.cons_append, buildOperatorGo]
        have hv := (hpre2 _ (List.mem_cons_self _ _)).2
        rw [← applyPair_isOk qids (opMatrix bname) ol spec2 qs] at hv
        cases happ : applyPair qids (opMatrix bname) ol spec2 qs with
        | error e =>
          rw [happ] at hv
          exact Bool.noConfusion hv
        | ok ol1 =>
          exact ih (fun p hp => hpre2 p (List.mem_cons_of_mem _ hp)) ol1
  rw [main pre hpre _, hglob]

/-- Counterexample to C10 as stated: an invalid pair listed before the
global one is not discarded silently — it raises before the global sum is
built. -/
theorem claim_C10_counterexample :
    build_operator [0, 1] (opMatrix "ground-rydberg" : List (String × Op1 ℚ))
        [(OpSpec.name "nope", OpTarget.targets [0]),
          (OpSpec.name "I", OpTarget.global)] =
      Except.error "nope is not a valid operator" := by
  rfl

/-- Witness for C10 (amended): a valid placement listed before a global
pair contributes nothing; the result is the global sum alone. -/
theorem claim_C10_witness :
    build_operator [0, 1] (opMatrix "ground-rydberg" : List (String × Op1 ℚ))
        [(OpSpec.name "sigma_rr", OpTarget.targets [1]),
          (OpSpec.name "sigma_rr", OpTarget.global)] =
      Except.ok (sumM ([0, 1].map (fun q =>
        tensorOps ((List.replicate 2 (idOp 2)).set (qidIndex [0, 1] q)
          (ketbra 0 0))))) := by
  exact @claim_C10 ℚ _ _ _ _ [0, 1] "ground-rydberg"
    [(OpSpec.name "sigma_rr", OpTarget.targets [1])]
    (OpSpec.name "sigma_rr") [] (ketbra 0 0) (by decide) rfl

/-! ### Claim C1: Hermiticity of the assembled Hamiltonian -/

/-- The `qobj_list` stored by a `_construct_hamiltonian` call (empty when
the call raises). -/
def hamTermsAfter (prims : Prims α) (st : SimState α) (d : NoiseDraws)
    (u : Bool) : List (HTerm α) :=
  match construct_hamiltonian prims st d u with
  | Except.ok st1 => st1.hamTerms
  | Except.error _ => []

lemma dagM_addM (A B : QMat α) : dagM (addM A B) = addM (dagM A) (dagM B) := by
  funext i j
  simp [dagM, addM, star_add]

lemma dagM_dagM (A : QMat α) : dagM (dagM A) = A := by
  funext i j
  simp [dagM]

lemma dagM_hamAt (terms : List (HTerm α)) (k : ℕ) :
    dagM (hamAt terms k) = hamAt terms k := by
  unfold hamAt
  rw [dagM_addM, dagM_dagM]
  funext i j
  simp [addM]
  ring

/-- C1: whenever `_construct_hamiltonian` completes, the Hamiltonian it
stores — the assembled sum plus its own adjoint — equals its adjoint at
every index of the coarse time grid, for any state (noise set, basis, SLM
mask, sampling rate), draw stream and update mode. -/
theorem claim_C1 (prims : Prims α) (st : SimState α) (d : NoiseDraws)
    (u : Bool) (hok : (construct_hamiltonian prims st d u).isOk = true)
    (k : ℕ) :
    dagM (hamAt (hamTermsAfter prims st d u) k) =
      hamAt (hamTermsAfter prims st d u) k :=
  dagM_hamAt _ _

/-! Shared concrete instances for witnesses. -/

/-- Concrete numeric primitives over `ℚ` (their values are irrelevant to
every claim considered). -/
def prims0 : Prims ℚ := ⟨fun x => x, fun x => x, fun _ => 1⟩

/-- A concrete draw stream. -/
def draws0 : NoiseDraws := ⟨fun _ => 1/2, fun _ => 0, fun _ _ _ => 1⟩

/-- A concrete 2 ns square pulse. -/
def pulse0 : Pulse := ⟨fun _ => 1, fun _ => 0, 0⟩

/-- A two-qubit sequence with one global ground-rydberg channel. -/
def seq0 : SeqData := ⟨[0, 1], fun q => ((q : ℚ), 0), 2,
  [⟨"Global", "ground-rydberg", [⟨0, 2, [0, 1], some pulse0⟩]⟩],
  [], [], 1, 1, (0, 0)⟩

/-- A noiseless configuration. -/
def cfg0 : SimConfig := ⟨[], 1/2, 2, 3, 1/20, 175, 0, 1/100, 1/20⟩

/-- A noiseless simulation state over `seq0` (basis not yet built). -/
def st0 : SimState ℚ := ⟨seq0, "ising", 1, cfg0, fun _ => false, fun _ => 0,
  none, SamplesTable.empty, [], [], [0, 0, 0, 1], [0, 1/1000]⟩

/-- Witness for C1: a concrete noiseless construction completes and its
Hamiltonian is self-adjoint at grid index 0. -/
theorem claim_C1_witness :
    (construct_hamiltonian prims0 st0 draws0 true).isOk = true ∧
    dagM (hamAt (hamTermsAfter prims0 st0 draws0 true) 0) =
      hamAt (hamTermsAfter prims0 st0 draws0 true) 0 :=
  ⟨by decide, claim_C1 prims0 st0 draws0 true (by decide) 0⟩

/-! ### Claim C8: eta = 1 makes the Hamiltonian vanish -/

/-- A coefficient entry that is identically zero. -/
def TripleZero (tr : SampleTriple) : Prop :=
  ∀ t, tr.amp t = 0 ∧ tr.det t = 0 ∧ tr.phase t = 0

/-- A samples dictionary with no global entries and only zero local
entries. -/
def TableZero (tbl : SamplesTable) : Prop :=
  (∀ b, tbl.glob b = none) ∧ ∀ b, ∀ p ∈ tbl.loc b, TripleZero p.2

lemma emptyTriple_zero : TripleZero emptyTriple := by
  intro t
  refine ⟨rfl, rfl, rfl⟩

lemma maskTriple_zero {tr : SampleTriple} (h : TripleZero tr) (tf : ℕ) :
    TripleZero (maskTriple tr tf) := by
  intro t
  unfold maskTriple
  refine ⟨?_, ?_, ?_⟩ <;> simp only <;> split_ifs <;>
    first | rfl | exact (h t).1 | exact (h t).2.1 | exact (h t).2.2

lemma alistGet_mem {l : List (QubitId × SampleTriple)} {q : QubitId}
    {tr : SampleTriple} (hg : alistGet l q = some tr) : ∃ p ∈ l, p.2 = tr := by
  unfold alistGet at hg
  cases hf : l.find? (fun p => p.1 = q) with
  | none => rw [hf] at hg; exact Option.noConfusion hg
  | some p =>
    rw [hf] at hg
    exact ⟨p, List.mem_of_find?_eq_some hf, Option.some.inj hg⟩

lemma alistGet_getD_zero {l : List (QubitId × SampleTriple)}
    (h : ∀ p ∈ l, TripleZero p.2) (q : QubitId) :
    TripleZero ((alistGet l q).getD emptyTriple) := by
  cases hg : alistGet l q with
  | none => exact emptyTriple_zero
  | some tr =>
    obtain ⟨p, hp, hp2⟩ := alistGet_mem hg
    rw [← hp2]
    exact h p hp

lemma alistSet_zero {l : List (QubitId × SampleTriple)} {q : QubitId}
    {v : SampleTriple} (h : ∀ p ∈ l, TripleZero p.2) (hv : TripleZero v) :
    ∀ p ∈ alistSet l q v, TripleZero p.2 := by
  intro p hp
  unfold alistSet at hp
  split_ifs at hp with hc
  · obtain ⟨p0, hp0, hpe⟩ := List.mem_map.mp hp
    by_cases h2 : p0.1 = q
    · rw [← hpe]
      simpa [h2] using hv
    · rw [← hpe]
      simpa [h2] using h p0 hp0
  · rcases List.mem_append.mp hp with h2 | h2
    · exact h p h2
    · rw [List.mem_singleton.mp h2]
      exact hv

lemma generalSlot_zero (st : SimState α) (d : NoiseDraws) (prims : Prims α)
    (chIdx : ℕ) (isGlobal : Bool) (hbad : ∀ q, st.badAtoms q = true)
    (l : List (QubitId × SampleTriple)) (islot : ℕ × TimeSlot)
    (hl : ∀ p ∈ l, TripleZero p.2) :
    ∀ p ∈ generalSlot st d prims chIdx isGlobal l islot, TripleZero p.2 := by
  unfold generalSlot
  cases hp : islot.2.pulse with
  | none => exact hl
  | some pp =>
    simp only
    have main : ∀ (ts : List QubitId) (l2 : List (QubitId × SampleTriple)),
        (∀ p2 ∈ l2, TripleZero p2.2) →
        ∀ p2 ∈ ts.foldl (fun l3 q =>
          if st.badAtoms q then alistSet l3 q ((alistGet l3 q).getD emptyTriple)
          else alistSet l3 q (writeSamples st d prims chIdx islot.1 islot.2 pp
            isGlobal q ((alistGet l3 q).getD emptyTriple))) l2, TripleZero p2.2 := by
      intro ts
      induction ts with
      | nil => intro l2 h2; exact h2
      | cons q ts2 ih =>
        intro l2 h2
        simp only [List.foldl_cons]
        rw [if_pos (hbad q)]
        exact ih _ (alistSet_zero h2 (alistGet_getD_zero h2 q))
    exact main islot.2.targets l hl

lemma applyMask_zero {basis : String} {tf : ℕ} :
    ∀ {targets : List QubitId} {tbl tbl2 : SamplesTable}, TableZero tbl →
    applyMask tbl basis tf targets = Except.ok tbl2 → TableZero tbl2 := by
  intro targets
  induction targets with
  | nil =>
    intro tbl tbl2 htbl h
    rw [← Except.ok.inj h]
    exact htbl
  | cons q ts ih =>
    intro tbl tbl2 htbl h
    unfold applyMask at h
    cases hg : alistGet (tbl.loc basis) q with
    | none => rw [hg] at h; exact Except.noConfusion h
    | some tr =>
      rw [hg] at h
      refine ih ?_ h
      have htr : TripleZero tr := by
        obtain ⟨p, hp, hp2⟩ := alistGet_mem hg
        rw [← hp2]
        exact htbl.2 basis p hp
      constructor
      · intro b; exact htbl.1 b
      · intro b p hp
        by_cases hb : b = basis
        · subst hb
          have : (setLoc tbl b (alistSet (tbl.loc b) q (maskTriple tr tf))).loc b =
              alistSet (tbl.loc b) q (maskTriple tr tf) := by
            unfold setLoc
            simp
          rw [this] at hp
          exact alistSet_zero (htbl.2 b) (maskTriple_zero htr tf) p hp
        · have : (setLoc tbl basis (alistSet (tbl.loc basis) q (maskTriple tr tf))).loc b =
              tbl.loc b := by
            unfold setLoc
            simp [hb]
          rw [this] at hp
          exact htbl.2 b p hp

lemma extractChannel_zero (st : SimState α) (d : NoiseDraws) (prims : Prims α)
    (hbad : ∀ q, st.badAtoms q = true)
    (hnsub : ¬ (∀ x ∈ st.config.noise, x = "dephasing"))
    {tbl : SamplesTable} {chIdx : ℕ} {ch : Channel} {tbl2 : SamplesTable}
    (htbl : TableZero tbl)
    (h : extractChannel st d prims tbl chIdx ch = Except.ok tbl2) :
    TableZero tbl2 := by
  unfold extractChannel at h
  have hfold : ∀ (slots : List (ℕ × TimeSlot)) (l : List (QubitId × SampleTriple)),
      (∀ p ∈ l, TripleZero p.2) →
      ∀ p ∈ slots.foldl (generalSlot st d prims chIdx (ch.addressing = "Global")) l,
        TripleZero p.2 := by
    intro slots
    induction slots with
    | nil => intro l hl; exact hl
    | cons islot rest ih =>
      intro l hl
      simp only [List.foldl_cons]
      exact ih _ (generalSlot_zero st d prims chIdx _ hbad l islot hl)
  have htbl1 : TableZero (setLoc tbl ch.basis
      (ch.slots.enum.foldl (generalSlot st d prims chIdx
        (ch.addressing = "Global")) (tbl.loc ch.basis))) := by
    constructor
    · intro b; exact htbl.1 b
    · intro b p hp
      unfold setLoc at hp
      simp only at hp
      by_cases hb : b = ch.basis
      · rw [if_pos hb] at hp
        exact hfold _ _ (htbl.2 ch.basis) p hp
      · rw [if_neg hb] at hp
        exact htbl.2 b p hp
  by_cases hm : st.seq.slmTargets ≠ [] ∧ st.seq.slmTime ≠ []
  · rw [if_pos hm, if_neg (fun hc => hnsub hc.2)] at h
    exact applyMask_zero htbl1 h
  · rw [if_neg hm, if_neg (fun hc => hnsub hc.2)] at h
    rw [← Except.ok.inj h]
    exact htbl1

lemma extract_zero (st : SimState α) (d : NoiseDraws) (prims : Prims α)
    (hbad : ∀ q, st.badAtoms q = true)
    (hnsub : ¬ (∀ x ∈ st.config.noise, x = "dephasing"))
    {tbl2 : SamplesTable} (h : extract_samples st d prims = Except.ok tbl2) :
    TableZero tbl2 := by
  unfold extract_samples at h
  have main : ∀ (chs : List (ℕ × Channel)) (tbl : SamplesTable), TableZero tbl →
      extractChannels st d prims chs tbl = Except.ok tbl2 → TableZero tbl2 := by
    intro chs
    induction chs with
    | nil =>
      intro tbl htbl h2
      rw [← Except.ok.inj h2]
      exact htbl
    | cons ic rest ih =>
      intro tbl htbl h2
      obtain ⟨i, ch⟩ := ic
      unfold extractChannels at h2
      cases hc : extractChannel st d prims tbl i ch with
      | error e => rw [hc] at h2; exact Except.noConfusion h2
      | ok tbl1 =>
        rw [hc] at h2
        exact ih tbl1 (extractChannel_zero st d prims hbad hnsub htbl hc) h2
  refine main _ SamplesTable.empty ⟨fun b => rfl, fun b p hp => absurd hp ?_⟩ h
  simp [SamplesTable.empty]

lemma update_noise_config (st : SimState α) (d : NoiseDraws) :
    (update_noise st d).config = st.config := by
  unfold update_noise
  split_ifs <;> rfl

lemma update_noise_seq (st : SimState α) (d : NoiseDraws) :
    (update_noise st d).seq = st.seq := by
  unfold update_noise
  split_ifs <;> rfl

lemma update_noise_all_bad (st : SimState α) (d : NoiseDraws)
    (hspam : "SPAM" ∈ st.config.noise) (heta : st.config.eta = 1)
    (hu : ∀ i, i ≤ st.seq.qids.length → d.uniform i < 1) :
    ∀ q, (update_noise st d).badAtoms q = true := by
  intro q
  unfold update_noise
  have hcond : "SPAM" ∈ st.config.noise ∧ 0 < st.config.eta := by
    exact ⟨hspam, by rw [heta]; norm_num⟩
  rw [if_pos hcond]
  have hidx : qidIndex st.seq.qids q ≤ st.seq.qids.length := by
    unfold qidIndex
    exact List.findIdx_le_length _
  have hlt : d.uniform (qidIndex st.seq.qids q) < st.config.eta := by
    rw [heta]
    exact hu _ hidx
  split_ifs <;> simpa using hlt

lemma ensureBasis_badAtoms (st : SimState α) :
    (ensureBasis st).badAtoms = st.badAtoms := by
  unfold ensureBasis
  split_ifs <;> rfl

lemma ensureBasis_samples (st : SimState α) :
    (ensureBasis st).samples = st.samples := by
  unfold ensureBasis
  split_ifs <;> rfl

lemma ensureBasis_seq (st : SimState α) :
    (ensureBasis st).seq = st.seq := by
  unfold ensureBasis
  split_ifs <;> rfl

lemma ensureBasis_config (st : SimState α) :
    (ensureBasis st).config = st.config := by
  unfold ensureBasis
  split_ifs <;> rfl

lemma ensureBasis_interaction (st : SimState α) :
    (ensureBasis st).interaction = st.interaction := by
  unfold ensureBasis
  split_ifs <;> rfl

lemma construct_update_eq (prims : Prims α) (st : SimState α) (d : NoiseDraws) :
    construct_hamiltonian prims st d true =
      match extract_samples (update_noise st d) d prims with
      | Except.error e => Except.error e
      | Except.ok tbl =>
        match buildTerms prims (ensureBasis {update_noise st d with samples := tbl}) with
        | Except.error e => Except.error e
        | Except.ok terms =>
          Except.ok {ensureBasis {update_noise st d with samples := tbl} with
            hamTerms := terms} := by
  unfold construct_hamiltonian
  cases hE : extract_samples (update_noise st d) d prims with
  | error e => rfl
  | ok tbl => rfl

lemma construct_noupdate_eq (prims : Prims α) (st : SimState α) (d : NoiseDraws) :
    construct_hamiltonian prims st d false =
      match buildTerms prims (ensureBasis st) with
      | Except.error e => Except.error e
      | Except.ok terms => Except.ok {ensureBasis st with hamTerms := terms} :=
  rfl

lemma anyNonzero_false (T : ℕ) (f : ℕ → α) (h : ∀ t, f t = 0) :
    anyNonzero T f = false := by
  unfold anyNonzero
  rw [List.any_eq_false]
  intro t ht
  simp [h t]

lemma coeffPair_zero (prims : Prims α) {tr : SampleTriple} (hz : TripleZero tr)
    (b : String) (T : ℕ) :
    ∀ pr ∈ (opIds b).zip (coeffPair prims tr), anyNonzero T pr.2 = false := by
  intro pr hpr
  have h2 := (List.of_mem_zip hpr).2
  unfold coeffPair at h2
  rcases List.mem_cons.mp h2 with he | h3
  · rw [he]
    refine anyNonzero_false T _ (fun t => ?_)
    simp [ratC, (hz t).1]
  · rw [List.mem_singleton.mp h3]
    refine anyNonzero_false T _ (fun t => ?_)
    simp [ratC, (hz t).2.1]

lemma termsFromPairs_zero (st : SimState α)
    (mk : String → Except String (QMat α))
    (pairs : List (String × (ℕ → α)))
    (h : ∀ pr ∈ pairs, anyNonzero st.seq.duration pr.2 = false) :
    termsFromPairs st mk pairs = Except.ok [] := by
  induction pairs with
  | nil => rfl
  | cons pr rest ih =>
    obtain ⟨opid, coeff⟩ := pr
    unfold termsFromPairs
    rw [if_neg (by
      rw [h _ (List.mem_cons_self _ _)]
      exact Bool.false_ne_true)]
    exact ih (fun pr2 h2 => h pr2 (List.mem_cons_of_mem _ h2))

lemma buildCoeffsLocal_zero (prims : Prims α) (st : SimState α) (b : String)
    (h : ∀ p ∈ st.samples.loc b, TripleZero p.2) :
    buildCoeffsLocal prims st b = Except.ok [] := by
  unfold buildCoeffsLocal
  have main : ∀ (l : List (QubitId × SampleTriple)),
      (∀ p ∈ l, TripleZero p.2) → ∀ acc : List (HTerm α),
      l.foldlM (fun acc p =>
        (termsFromPairs st
            (fun opid => buildOp st [(OpSpec.name opid, OpTarget.targets [p.1])])
            ((opIds b).zip (coeffPair prims p.2))).map
          (fun ts => acc ++ ts)) acc = Except.ok acc := by
    intro l
    induction l with
    | nil => intro _ acc; rfl
    | cons p rest ih =>
      intro h2 acc
      rw [List.foldlM_cons, termsFromPairs_zero st _ _
        (coeffPair_zero prims (h2 p (List.mem_cons_self _ _)) b st.seq.duration)]
      have hstep : (Except.ok [] : Except String (List (HTerm α))).map
          (fun ts => acc ++ ts) = Except.ok acc := by
        simp [Except.map]
      rw [hstep]
      exact ih (fun p2 hp2 => h2 p2 (List.mem_cons_of_mem _ hp2)) acc
  exact main _ h []

lemma driveTerms_zero (prims : Prims α) (st : SimState α)
    (hg : ∀ b, st.samples.glob b = none)
    (hl : ∀ b, ∀ p ∈ st.samples.loc b, TripleZero p.2) :
    driveTerms prims st = Except.ok [] := by
  unfold driveTerms
  have hglob : ∀ (bl : List String) (acc : List (HTerm α)),
      bl.foldlM (fun acc b =>
        if (st.samples.glob b).isSome then
          (buildCoeffsGlobal prims st b).map (fun ts => acc ++ ts)
        else pure acc) acc = Except.ok acc := by
    intro bl
    induction bl with
    | nil => intro acc; rfl
    | cons b rest ih =>
      intro acc
      rw [List.foldlM_cons]
      rw [if_neg (by rw [hg b]; simp)]
      exact ih acc
  have hloc : ∀ (bl : List String) (acc : List (HTerm α)),
      bl.foldlM (fun acc b =>
        if ¬ (st.samples.loc b).isEmpty then
          (buildCoeffsLocal prims st b).map (fun ts => acc ++ ts)
        else pure acc) acc = Except.ok acc := by
    intro bl
    induction bl with
    | nil => intro acc; rfl
    | cons b rest ih =>
      intro acc
      rw [List.foldlM_cons]
      by_cases hb : (st.samples.loc b).isEmpty
      · rw [if_neg (by simp [hb])]
        exact ih acc
      · rw [if_pos (by simp [hb]), buildCoeffsLocal_zero prims st b (hl b)]
        have hstep : (Except.ok [] : Except String (List (HTerm α))).map
            (fun ts => acc ++ ts) = Except.ok acc := by
          simp [Except.map]
        rw [hstep]
        exact ih acc
  rw [hglob]
  exact hloc _ []

lemma badCount_all (st : SimState α) (hbad : ∀ q, st.badAtoms q = true) :
    badCount st = st.seq.qids.length := by
  unfold badCount
  rw [List.filter_eq_self.mpr (fun q _ => hbad q)]

lemma buildOp_global_I_ok (st : SimState α) :
    ∃ m, buildOp st [(OpSpec.name "I", OpTarget.global)] = Except.ok m := by
  unfold buildOp registry
  rw [build_operator_eq _ _ _ _ (resolveOp_I (bnameD st))]
  show ∃ m, globalSum st.seq.qids (opMatrix (bnameD st))
    (idOp (dimOf (bnameD st))) (OpSpec.name "I") = Except.ok m
  unfold globalSum
  rw [mapM_ok _ (fun q => tensorOps ((List.replicate st.seq.qids.length
      (idOp (dimOf (bnameD st)))).set (qidIndex st.seq.qids q)
      (idOp (dimOf (bnameD st))))) st.seq.qids ?hall]
  · exact ⟨_, rfl⟩
  case hall =>
    intro q hq
    unfold buildSingle applyPair
    rw [if_neg (by simp), if_neg (not_not_intro (by simpa using hq)),
      resolveOp_I]
    rfl

lemma buildTerms_zero (prims : Prims α) (st : SimState α)
    (hbad : ∀ q, st.badAtoms q = true) (htbl : TableZero st.samples) :
    ∃ m, buildTerms prims st = Except.ok [HTerm.const (smulM 0 m)] := by
  obtain ⟨m, hm⟩ := buildOp_global_I_ok st
  refine ⟨m, ?_⟩
  unfold buildTerms
  rw [if_neg (fun hc => by
    have h2 := hc.2
    rw [badCount_all st hbad] at h2
    omega)]
  rw [driveTerms_zero prims st htbl.1 htbl.2]
  show (if (([] : List (HTerm α)) ++ []).isEmpty then _ else _) = _
  rw [if_pos (by simp), hm]
  rfl

lemma hamAt_zero_term (m : QMat α) (k : ℕ) :
    hamAt [HTerm.const (smulM 0 m)] k = zeroM := by
  funext i j
  simp [hamAt, sumM, addM, zeroM, dagM, smulM, termAt]

/-- The state stored after a `_construct_hamiltonian` call (unchanged when
the call raises). -/
def stateAfter (prims : Prims α) (st : SimState α) (d : NoiseDraws)
    (u : Bool) : SimState α :=
  match construct_hamiltonian prims st d u with
  | Except.ok st1 => st1
  | Except.error _ => st

/-- C8: with SPAM noise at `eta = 1` every uniform draw marks its atom
bad, so a completing reconstruction stores only all-zero local samples, no
global samples, and a Hamiltonian that is the zero operator at every grid
index — in every realization (every draw stream). -/
theorem claim_C8 (prims : Prims α) (st : SimState α) (d : NoiseDraws)
    (hok : (construct_hamiltonian prims st d true).isOk = true)
    (hspam : "SPAM" ∈ st.config.noise)
    (heta : st.config.eta = 1)
    (hu : ∀ i, i ≤ st.seq.qids.length → d.uniform i < 1) :
    (∀ b, ∀ p ∈ (stateAfter prims st d true).samples.loc b, TripleZero p.2) ∧
    (∀ b, (stateAfter prims st d true).samples.glob b = none) ∧
    ∀ k, hamAt (stateAfter prims st d true).hamTerms k = zeroM := by
  have hbad : ∀ q, (update_noise st d).badAtoms q = true :=
    update_noise_all_bad st d hspam heta hu
  have hnsub : ¬ (∀ x ∈ (update_noise st d).config.noise, x = "dephasing") := by
    rw [update_noise_config]
    intro hall
    exact absurd (hall _ hspam) (by decide)
  cases hE : extract_samples (update_noise st d) d prims with
  | error e =>
    exfalso
    have hC : construct_hamiltonian prims st d true = Except.error e := by
      rw [construct_update_eq, hE]
    rw [hC] at hok
    simp [Except.isOk, Except.toBool] at hok
  | ok tbl =>
    have htbl : TableZero tbl :=
      extract_zero (update_noise st d) d prims hbad hnsub hE
    have hbad3 : ∀ q,
        (ensureBasis {update_noise st d with samples := tbl}).badAtoms q = true := by
      rw [ensureBasis_badAtoms]
      exact hbad
    have hsam3 :
        (ensureBasis {update_noise st d with samples := tbl}).samples = tbl := by
      rw [ensureBasis_samples]
    obtain ⟨m, hbt⟩ := buildTerms_zero prims
      (ensureBasis {update_noise st d with samples := tbl}) hbad3
      (by rw [hsam3]; exact htbl)
    have hC : construct_hamiltonian prims st d true =
        Except.ok {ensureBasis {update_noise st d with samples := tbl} with
          hamTerms := [HTerm.const (smulM 0 m)]} := by
      rw [construct_update_eq, hE]
      dsimp only
      rw [hbt]
    have hSA : stateAfter prims st d true =
        {ensureBasis {update_noise st d with samples := tbl} with
          hamTerms := [HTerm.const (smulM 0 m)]} := by
      unfold stateAfter
      rw [hC]
    rw [hSA]
    refine ⟨?_, ?_, ?_⟩
    · intro b p hp
      have hsam : ({ensureBasis {update_noise st d with samples := tbl} with
          hamTerms := [HTerm.const (smulM 0 m)]} : SimState α).samples = tbl := hsam3
      rw [hsam] at hp
      exact htbl.2 b p hp
    · intro b
      have hsam : ({ensureBasis {update_noise st d with samples := tbl} with
          hamTerms := [HTerm.const (smulM 0 m)]} : SimState α).samples = tbl := hsam3
      rw [hsam]
      exact htbl.1 b
    · intro k
      exact hamAt_zero_term m k

/-- A configuration with SPAM noise at full preparation-error probability. -/
def cfg8 : SimConfig := ⟨["SPAM"], 1, 2, 3, 1/20, 175, 0, 1/100, 1/20⟩

/-- The state of `seq0` under `cfg8`. -/
def st8 : SimState ℚ := ⟨seq0, "ising", 1, cfg8, fun _ => false, fun _ => 0,
  none, SamplesTable.empty, [], [], [0, 0, 0, 1], [0, 1/1000]⟩

/-- Witness for C8: a concrete reconstruction with eta = 1 completes and
its Hamiltonian vanishes at grid index 0. -/
theorem claim_C8_witness :
    (construct_hamiltonian prims0 st8 draws0 true).isOk = true ∧
    hamAt (stateAfter prims0 st8 draws0 true).hamTerms 0 = zeroM := by
  refine ⟨by decide, ?_⟩
  exact (claim_C8 prims0 st8 draws0 (by decide) (by decide) (by decide)
    (by intro i hi; exact (by norm_num : (1/2 : ℚ) < 1))).2.2 0

/-! ### Claim C6: set_config rollback -/

lemma update_noise_interaction (st : SimState α) (d : NoiseDraws) :
    (update_noise st d).interaction = st.interaction := by
  unfold update_noise
  split_ifs <;> rfl

lemma update_noise_basisName (st : SimState α) (d : NoiseDraws) :
    (update_noise st d).basisName = st.basisName := by
  unfold update_noise
  split_ifs <;> rfl

lemma ensureBasis_of_isSome (st : SimState α) (h : st.basisName.isSome) :
    ensureBasis st = st := by
  unfold ensureBasis
  rw [if_neg (fun hc => by rw [hc] at h; simp at h)]

lemma construct_preserves {prims : Prims α} {st : SimState α} {d : NoiseDraws}
    {u : Bool} {st1 : SimState α}
    (h : construct_hamiltonian prims st d u = Except.ok st1) :
    st1.config = st.config ∧ st1.interaction = st.interaction ∧
    st1.seq = st.seq ∧ (st.basisName.isSome → st1.basisName = st.basisName) := by
  unfold construct_hamiltonian at h
  cases u with
  | false =>
    rw [if_neg (by simp)] at h
    dsimp only at h
    cases hB : buildTerms prims (ensureBasis st) with
    | error e => rw [hB] at h; exact Except.noConfusion h
    | ok terms =>
      rw [hB] at h
      have hst1 := (Except.ok.inj h).symm
      subst hst1
      refine ⟨?_, ?_, ?_, fun hs => ?_⟩
      · show (ensureBasis st).config = st.config
        exact ensureBasis_config st
      · show (ensureBasis st).interaction = st.interaction
        exact ensureBasis_interaction st
      · show (ensureBasis st).seq = st.seq
        exact ensureBasis_seq st
      · show (ensureBasis st).basisName = st.basisName
        rw [ensureBasis_of_isSome st hs]
  | true =>
    rw [if_pos rfl] at h
    cases hE : extract_samples (update_noise st d) d prims with
    | error e =>
      rw [hE] at h
      dsimp only [Except.map] at h
      exact Except.noConfusion h
    | ok tbl =>
      rw [hE] at h
      dsimp only [Except.map] at h
      cases hB : buildTerms prims
          (ensureBasis {update_noise st d with samples := tbl}) with
      | error e => rw [hB] at h; exact Except.noConfusion h
      | ok terms =>
        rw [hB] at h
        have hst1 := (Except.ok.inj h).symm
        subst hst1
        refine ⟨?_, ?_, ?_, fun hs => ?_⟩
        · show (ensureBasis {update_noise st d with samples := tbl}).config = st.config
          rw [ensureBasis_config]
          exact update_noise_config st d
        · show (ensureBasis {update_noise st d with samples := tbl}).interaction =
            st.interaction
          rw [ensureBasis_interaction]
          exact update_noise_interaction st d
        · show (ensureBasis {update_noise st d with samples := tbl}).seq = st.seq
          rw [ensureBasis_seq]
          exact update_noise_seq st d
        · show (ensureBasis {update_noise st d with samples := tbl}).basisName =
            st.basisName
          rw [ensureBasis_of_isSome _ (by
            show ({update_noise st d with samples := tbl} : SimState α).basisName.isSome
            rw [show ({update_noise st d with samples := tbl} : SimState α).basisName =
              st.basisName from (update_noise_basisName st d)]
            exact hs)]
          exact update_noise_basisName st d

lemma set_config_pre_fields (st : SimState α) (cfg : SimConfig) :
    (set_config_pre st cfg).config = cfg ∧
    (set_config_pre st cfg).interaction = st.interaction ∧
    (set_config_pre st cfg).basisName = st.basisName ∧
    (set_config_pre st cfg).seq = st.seq := by
  unfold set_config_pre
  split_ifs <;> exact ⟨rfl, rfl, rfl, rfl⟩

lemma set_config_fuel_succ (prims : Prims α) (d : ℕ → NoiseDraws) (fuel : ℕ)
    (st : SimState α) (cfg : SimConfig) :
    set_config_fuel prims d (fuel + 1) st cfg =
      if ¬ (∀ x ∈ cfg.noise, x ∈ supportedNoise st.interaction) then
        (st, some "Interaction mode does not support simulation of these noise types")
      else
        match construct_hamiltonian prims (set_config_pre st cfg) (d fuel) true with
        | Except.error e => (set_config_pre st cfg, some e)
        | Except.ok st1 =>
          if "dephasing" ∈ cfg.noise then
            if bnameD st1 = "digital" ∨ bnameD st1 = "all" then
              ((set_config_fuel prims d fuel st1 st.config).1,
                some "Cannot include dephasing noise in digital- or all-basis.")
            else
              match collapse_ops_of prims st1 with
              | Except.error e => (st1, some e)
              | Except.ok ops => ({st1 with collapseOps := ops}, none)
          else (st1, none) := rfl

/-- C6: a `set_config` call requesting dephasing noise while the (already
built) basis is digital or all reports the dephasing error, and the
configuration stored after the failed call is the previous valid one —
the rollback reconstruction ran on the previous config before the error
was raised. -/
theorem claim_C6 (prims : Prims α) (d : ℕ → NoiseDraws) (st : SimState α)
    (cfg : SimConfig)
    (hsup : ∀ x ∈ cfg.noise, x ∈ supportedNoise st.interaction)
    (hdep : "dephasing" ∈ cfg.noise)
    (hbasis : st.basisName = some "digital" ∨ st.basisName = some "all")
    (hprevSup : ∀ x ∈ st.config.noise, x ∈ supportedNoise st.interaction)
    (hprevDep : "dephasing" ∉ st.config.noise)
    (hpath : set_config_path_ok prims d st cfg = true) :
    (set_config prims d st cfg).2 =
      some "Cannot include dephasing noise in digital- or all-basis." ∧
    (set_config prims d st cfg).1.config = st.config := by
  have e2 : set_config prims d st cfg = set_config_fuel prims d (1 + 1) st cfg := rfl
  rw [e2, set_config_fuel_succ, if_neg (not_not_intro hsup)]
  unfold set_config_path_ok at hpath
  cases h1 : construct_hamiltonian prims (set_config_pre st cfg) (d 1) true with
  | error e =>
    rw [h1] at hpath
    exact Bool.noConfusion hpath
  | ok st1 =>
    rw [h1] at hpath
    have hok2 : (construct_hamiltonian prims (set_config_pre st1 st.config)
        (d 0) true).isOk = true := hpath
    have hpres1 := construct_preserves h1
    have hb1 : st1.basisName = st.basisName := by
      rw [hpres1.2.2.2 (by
        rw [(set_config_pre_fields st cfg).2.2.1]
        rcases hbasis with hb | hb <;> rw [hb] <;> rfl),
        (set_config_pre_fields st cfg).2.2.1]
    have hbd : bnameD st1 = "digital" ∨ bnameD st1 = "all" := by
      unfold bnameD
      rw [hb1]
      rcases hbasis with hb | hb <;> rw [hb]
      · exact Or.inl rfl
      · exact Or.inr rfl
    have hint1 : st1.interaction = st.interaction := by
      rw [hpres1.2.1, (set_config_pre_fields st cfg).2.1]
    dsimp only
    rw [if_pos hdep, if_pos hbd]
    refine ⟨rfl, ?_⟩
    show (set_config_fuel prims d (0 + 1) st1 st.config).1.config = st.config
    rw [set_config_fuel_succ, if_neg (not_not_intro (by rw [hint1]; exact hprevSup))]
    cases h2 : construct_hamiltonian prims (set_config_pre st1 st.config)
        (d 0) true with
    | error e =>
      rw [h2] at hok2
      exact Bool.noConfusion hok2
    | ok st2 =>
      dsimp only
      rw [if_neg hprevDep]
      show st2.config = st.config
      rw [(construct_preserves h2).1, (set_config_pre_fields st1 st.config).1]

/-- A two-qubit sequence with one local digital channel. -/
def seqD : SeqData := ⟨[0, 1], fun q => ((q : ℚ), 0), 2,
  [⟨"Local", "digital", [⟨0, 2, [0, 1], some pulse0⟩]⟩], [], [], 1, 1, (0, 0)⟩

/-- A configuration requesting dephasing noise. -/
def cfgDeph : SimConfig := ⟨["dephasing"], 1/200, 2, 3, 1/20, 175, 0, 1/100, 1/20⟩

/-- A digital-basis simulation state over `seqD` holding a valid noiseless
configuration. -/
def stD : SimState ℚ := ⟨seqD, "ising", 1, cfg0, fun _ => false, fun _ => 0,
  some "digital", SamplesTable.empty, [], [], [0, 0, 0, 1], [0, 1/1000]⟩

/-- Witness for C6: requesting dephasing on a digital-basis simulation
reports the error and leaves the previous configuration in place. -/
theorem claim_C6_witness :
    (set_config prims0 (fun _ => draws0) stD cfgDeph).2 =
      some "Cannot include dephasing noise in digital- or all-basis." ∧
    (set_config prims0 (fun _ => draws0) stD cfgDeph).1.config = stD.config :=
  claim_C6 prims0 (fun _ => draws0) stD cfgDeph (by decide) (by decide)
    (Or.inl rfl) (by decide) (by decide) (by decide)

/-! ### Claim C2: regime selection of `run` -/

lemma runLoop_cons (solve : SimState α → R) (sample : R → ℚ → ℕ → Ω → ℕ)
    (evalTs : List ℚ) (spr reps : ℕ)
    (stepF : SimState α → Except String (SimState α))
    (rest : List (ℕ × (SimState α → Except String (SimState α))))
    (st : SimState α) :
    runLoop solve sample evalTs spr ((reps, stepF) :: rest) st =
      match stepF st with
      | Except.error e => (Except.error e, zeroCounts evalTs, 0)
      | Except.ok st1 =>
        match runLoop solve sample evalTs spr rest st1 with
        | (r, cs, n) =>
          (r, addCounts (evalTs.map (fun t => fun o =>
            sample (solve st1) t (spr * reps) o)) cs, n + 1) := rfl

lemma runLoop_ok_solves (solve : SimState α → R) (sample : R → ℚ → ℕ → Ω → ℕ)
    (evalTs : List ℚ) (spr : ℕ) :
    ∀ (iters : List (ℕ × (SimState α → Except String (SimState α))))
      (st : SimState α),
      (runLoop solve sample evalTs spr iters st).1.isOk = true →
      (runLoop solve sample evalTs spr iters st).2.2 = iters.length := by
  intro iters
  induction iters with
  | nil => intro st _; rfl
  | cons p rest ih =>
    intro st h
    obtain ⟨reps, stepF⟩ := p
    rw [runLoop_cons] at h
    cases hs : stepF st with
    | error e =>
      rw [hs] at h
      exact Bool.noConfusion h
    | ok st1 =>
      rw [hs] at h
      have h1 : (runLoop solve sample evalTs spr rest st1).1.isOk = true := h
      have hrec := ih st1 h1
      show (runLoop solve sample evalTs spr ((reps, stepF) :: rest) st).2.2 =
        ((reps, stepF) :: rest).length
      rw [runLoop_cons, hs]
      show (runLoop solve sample evalTs spr rest st1).2.2 + 1 = rest.length + 1
      rw [hrec]

/-- C2: with the fail-fast guard passed, `run` selects its regime from the
noise set: a noise set inside dephasing/SPAM with SPAM absent or
`eta = 0` gives one solver call returning the coherent trajectory; with
SPAM present and `eta > 0` a completed run solves once per distinct drawn
bad-atom configuration; any other noise gives `config.runs` solves, each
with redrawn noise and a rebuilt Hamiltonian. -/
theorem claim_C2 (prims : Prims α) (st : SimState α) (solve : SimState α → R)
    (sample : R → ℚ → ℕ → Ω → ℕ) (uB : ℕ → ℕ → ℚ) (dC : ℕ → NoiseDraws)
    (hguard : spam_guard st = Except.ok ()) :
    ((∀ x ∈ st.config.noise, x = "dephasing" ∨ x = "SPAM") →
      ("SPAM" ∉ st.config.noise ∨ st.config.eta = 0) →
      runSim prims st solve sample uB dC =
        ⟨Except.ok (RunResult.coherent (solve st)), 1⟩) ∧
    ((∀ x ∈ st.config.noise, x = "dephasing" ∨ x = "SPAM") →
      "SPAM" ∈ st.config.noise → 0 < st.config.eta →
      (runSim prims st solve sample uB dC).result.isOk = true →
      (runSim prims st solve sample uB dC).solves =
        (caseBDraws st uB).dedup.length) ∧
    (¬ (∀ x ∈ st.config.noise, x = "dephasing" ∨ x = "SPAM") →
      (runSim prims st solve sample uB dC).result.isOk = true →
      (runSim prims st solve sample uB dC).solves = st.config.runs) := by
  refine ⟨?_, ?_, ?_⟩
  · intro hsub hA
    unfold runSim
    rw [hguard]
    dsimp only
    rw [if_pos hsub, if_pos hA]
  · intro hsub hspam heta
    have hB : ¬ ("SPAM" ∉ st.config.noise ∨ st.config.eta = 0) := by
      push_neg
      exact ⟨hspam, ne_of_gt heta⟩
    unfold runSim
    rw [hguard]
    dsimp only
    rw [if_pos hsub, if_neg hB]
    dsimp only
    generalize hQ : runLoop solve sample st.evalTimes st.config.samplesPerRun
      ((caseBConfigs st uB).map (fun p => (p.2, fun s =>
        construct_hamiltonian prims (loadBadAtoms s p.1) (dC 0) false))) st = q
    rcases q with ⟨r, cs, n⟩
    cases r with
    | error e => intro hok; exact Bool.noConfusion hok
    | ok u =>
      intro _
      have h1 : (runLoop solve sample st.evalTimes st.config.samplesPerRun
          ((caseBConfigs st uB).map (fun p => (p.2, fun s =>
            construct_hamiltonian prims (loadBadAtoms s p.1) (dC 0) false))) st).1.isOk
          = true := by rw [hQ]; rfl
      have hlen := runLoop_ok_solves solve sample st.evalTimes
        st.config.samplesPerRun
        ((caseBConfigs st uB).map (fun p => (p.2, fun s =>
          construct_hamiltonian prims (loadBadAtoms s p.1) (dC 0) false))) st h1
      rw [hQ] at hlen
      have hn : n = ((caseBConfigs st uB).map (fun p => (p.2, fun s =>
        construct_hamiltonian prims (loadBadAtoms s p.1) (dC 0) false))).length :=
        hlen
      show n = (caseBDraws st uB).dedup.length
      rw [hn, List.length_map]
      unfold caseBConfigs
      rw [List.length_map]
  · intro hnsub
    unfold runSim
    rw [hguard]
    dsimp only
    rw [if_neg hnsub]
    dsimp only
    rcases hr : runLoop solve sample st.evalTimes st.config.samplesPerRun
        ((List.range st.config.runs).map (fun i =>
          (1, fun s => construct_hamiltonian prims s (dC i) true))) st
      with ⟨r, cs, n⟩
    cases r with
    | error e => intro hok; exact Bool.noConfusion hok
    | ok u =>
      dsimp only
      intro _
      have hlen := runLoop_ok_solves solve sample st.evalTimes
        st.config.samplesPerRun
        ((List.range st.config.runs).map (fun i =>
          (1, fun s => construct_hamiltonian prims s (dC i) true))) st
        (by rw [hr]; rfl)
      rw [hr] at hlen
      simp only [List.length_map, List.length_range] at hlen
      exact hlen

/-- A concrete sampling oracle over outcome type `Bool`. -/
def sampleW : ℕ → ℚ → ℕ → Bool → ℕ := fun _ _ n o => cond o n 0

/-- Uniform draws making run 0 all-bad and every later run all-good. -/
def uBW : ℕ → ℕ → ℚ := fun i _ => if i = 0 then 0 else 1

/-- A SPAM configuration with `eta = 1/2`. -/
def cfgB : SimConfig := ⟨["SPAM"], 1/2, 2, 3, 1/20, 175, 0, 1/100, 1/20⟩

/-- A ground-state simulation of `seq0` under `cfgB`. -/
def stB : SimState ℚ := ⟨seq0, "ising", 1, cfgB, fun _ => false, fun _ => 0,
  some "ground-rydberg", SamplesTable.empty, [], [], [0, 0, 0, 1], [0, 1/1000]⟩

/-- A doppler-noise configuration. -/
def cfgC : SimConfig := ⟨["doppler"], 1/2, 2, 3, 1/20, 175, 0, 1/100, 1/20⟩

/-- A simulation state of `seq0` under `cfgC`. -/
def stC : SimState ℚ := ⟨seq0, "ising", 1, cfgC, fun _ => false, fun _ => 0,
  none, SamplesTable.empty, [], [], [0, 0, 0, 1], [0, 1/1000]⟩

/-- Witness for C2: a noiseless run returns the coherent trajectory after
one solve; a SPAM run with two distinct drawn configurations solves
twice; a doppler run solves `runs = 2` times. -/
theorem claim_C2_witness :
    runSim prims0 st0 (fun _ => (0 : ℕ)) sampleW uBW (fun _ => draws0) =
      (⟨Except.ok (RunResult.coherent 0), 1⟩ : RunOut ℕ Bool) ∧
    ((runSim prims0 stB (fun _ => (0 : ℕ)) sampleW uBW
        (fun _ => draws0)).solves = (caseBDraws stB uBW).dedup.length ∧
      (caseBDraws stB uBW).dedup.length = 2) ∧
    ((runSim prims0 stC (fun _ => (0 : ℕ)) sampleW uBW
        (fun _ => draws0)).solves = stC.config.runs ∧ stC.config.runs = 2) := by
  refine ⟨?_, ⟨?_, by decide⟩, ⟨?_, by decide⟩⟩
  · exact (claim_C2 prims0 st0 (fun _ => (0 : ℕ)) sampleW uBW (fun _ => draws0)
      (by decide)).1 (by decide) (by decide)
  · exact (claim_C2 prims0 stB (fun _ => (0 : ℕ)) sampleW uBW (fun _ => draws0)
      (by decide)).2.1 (by decide) (by decide) (by decide) (by decide)
  · exact (claim_C2 prims0 stC (fun _ => (0 : ℕ)) sampleW uBW (fun _ => draws0)
      (by decide)).2.2 (by decide) (by decide)

/-! ### Claim C3: Case-B histogram aggregation and normalization -/

lemma runLoop_counts_length (solve : SimState α → R)
    (sample : R → ℚ → ℕ → Ω → ℕ) (evalTs : List ℚ) (spr : ℕ) :
    ∀ (iters : List (ℕ × (SimState α → Except String (SimState α))))
      (st : SimState α),
      (runLoop solve sample evalTs spr iters st).2.1.length = evalTs.length := by
  intro iters
  induction iters with
  | nil =>
    intro st
    show (zeroCounts evalTs : List (Ω → ℕ)).length = evalTs.length
    unfold zeroCounts
    rw [List.length_map]
  | cons p rest ih =>
    intro st
    obtain ⟨reps, stepF⟩ := p
    rw [runLoop_cons]
    cases hs : stepF st with
    | error e =>
      show (zeroCounts evalTs : List (Ω → ℕ)).length = evalTs.length
      unfold zeroCounts
      rw [List.length_map]
    | ok st1 =>
      show (List.zipWith (fun f g o => f o + g o)
          (evalTs.map (fun t => fun o => sample (solve st1) t (spr * reps) o))
          (runLoop solve sample evalTs spr rest st1).2.1).length = evalTs.length
      rw [List.length_zipWith, List.length_map, ih st1]
      omega

lemma runLoop_counts_sum [Fintype Ω] (solve : SimState α → R)
    (sample : R → ℚ → ℕ → Ω → ℕ) (evalTs : List ℚ) (spr : ℕ)
    (hsample : ∀ r t n, ∑ o, sample r t n o = n) :
    ∀ (iters : List (ℕ × (SimState α → Except String (SimState α))))
      (st : SimState α),
      (runLoop solve sample evalTs spr iters st).1.isOk = true →
      ∀ i, i < evalTs.length →
        ∑ o, ((runLoop solve sample evalTs spr iters st).2.1.getD i
          (fun _ => 0)) o = spr * (iters.map Prod.fst).sum := by
  intro iters
  induction iters with
  | nil =>
    intro st _ i hi
    have hz : ((runLoop solve sample evalTs spr [] st).2.1.getD i
        (fun _ => 0) : Ω → ℕ) = fun _ => 0 := by
      show ((zeroCounts evalTs).getD i (fun _ => 0) : Ω → ℕ) = fun _ => 0
      unfold zeroCounts
      rw [List.getD_eq_getElem _ _ (by simpa using hi), List.getElem_map]
    rw [hz]
    simp
  | cons p rest ih =>
    intro st h i hi
    obtain ⟨reps, stepF⟩ := p
    rw [runLoop_cons] at h
    cases hs : stepF st with
    | error e =>
      rw [hs] at h
      exact Bool.noConfusion h
    | ok st1 =>
      rw [hs] at h
      have h1 : (runLoop solve sample evalTs spr rest st1).1.isOk = true := h
      have hrec := ih st1 h1 i hi
      rw [runLoop_cons, hs]
      show ∑ o, ((List.zipWith (fun f g o => f o + g o)
          (evalTs.map (fun t => fun o => sample (solve st1) t (spr * reps) o))
          (runLoop solve sample evalTs spr rest st1).2.1).getD i
            (fun _ => 0)) o =
        spr * (((reps, stepF) :: rest).map Prod.fst).sum
      have hlen2 : (runLoop solve sample evalTs spr rest st1).2.1.length =
          evalTs.length := runLoop_counts_length solve sample evalTs spr rest st1
      have hi2 : i < (runLoop solve sample evalTs spr rest st1).2.1.length := by
        rw [hlen2]
        exact hi
      have hiz : i < (List.zipWith (fun f g o => f o + g o)
          (evalTs.map (fun t => fun o => sample (solve st1) t (spr * reps) o))
          (runLoop solve sample evalTs spr rest st1).2.1).length := by
        rw [List.length_zipWith, List.length_map, hlen2]
        omega
      rw [List.getD_eq_getElem _ _ hiz]
      simp only [List.getElem_zipWith, List.getElem_map]
      rw [Finset.sum_add_distrib, hsample]
      rw [List.getD_eq_getElem _ _ hi2] at hrec
      rw [hrec, List.map_cons, List.sum_cons, Nat.mul_add]

lemma sum_map_add_split (f g : List Bool → ℕ) :
    ∀ L : List (List Bool),
      (L.map (fun c => f c + g c)).sum = (L.map f).sum + (L.map g).sum := by
  intro L
  induction L with
  | nil => rfl
  | cons b L ih =>
    simp only [List.map_cons, List.sum_cons, ih]
    omega

lemma sum_map_indicator_zero (a : List Bool) :
    ∀ L : List (List Bool), a ∉ L →
      (L.map (fun c => if a == c then 1 else 0)).sum = 0 := by
  intro L
  induction L with
  | nil => intro _; rfl
  | cons b L ih =>
    intro ha
    simp only [List.mem_cons, not_or] at ha
    rw [List.map_cons, List.sum_cons,
        show (a == b) = false from beq_eq_false_iff_ne.mpr ha.1,
        if_neg (fun hc => Bool.noConfusion hc), ih ha.2]

lemma sum_map_indicator_one (a : List Bool) :
    ∀ L : List (List Bool), L.Nodup → a ∈ L →
      (L.map (fun c => if a == c then 1 else 0)).sum = 1 := by
  intro L
  induction L with
  | nil => intro _ h; exact absurd h (List.not_mem_nil a)
  | cons b L ih =>
    intro hnd ha
    rw [List.map_cons, List.sum_cons]
    rcases List.mem_cons.mp ha with hab | haL
    · rw [show (a == b) = true from beq_iff_eq.mpr hab, if_pos rfl,
          sum_map_indicator_zero a L
            (fun hc => (List.nodup_cons.mp hnd).1 (hab ▸ hc))]
    · have hb : b ∉ L := (List.nodup_cons.mp hnd).1
      rw [show (a == b) = false from beq_eq_false_iff_ne.mpr
            (fun hc => hb (hc ▸ haL)),
          if_neg (fun hc => Bool.noConfusion hc),
          ih (List.nodup_cons.mp hnd).2 haL]

lemma sum_map_count_dedup :
    ∀ l : List (List Bool), (l.dedup.map (fun c => l.count c)).sum = l.length := by
  intro l
  induction l with
  | nil => rfl
  | cons a t ih =>
    have hcount : (fun c => (a :: t).count c) =
        fun c : List Bool => t.count c + if a == c then 1 else 0 := by
      funext c
      rw [List.count_cons]
    by_cases h : a ∈ t
    · rw [List.dedup_cons_of_mem h, hcount,
          sum_map_add_split (fun c => t.count c)
            (fun c => if a == c then 1 else 0) t.dedup,
          ih, sum_map_indicator_one a t.dedup (List.nodup_dedup t)
            (List.mem_dedup.mpr h), List.length_cons]
    · rw [List.dedup_cons_of_not_mem h, List.map_cons, List.sum_cons, hcount,
          sum_map_add_split (fun c => t.count c)
            (fun c => if a == c then 1 else 0) t.dedup,
          ih, sum_map_indicator_zero a t.dedup
            (fun hc => h (List.mem_dedup.mp hc)),
          List.length_cons]
      have hc0 : t.count a = 0 := List.count_eq_zero.mpr h
      simp [hc0]
      omega

/-- C3: in Case B a completed `run` solves once per distinct drawn
bad-atom configuration; the histogram weights each configuration by
`samples_per_run` times its multiplicity and is divided by
`runs * samples_per_run`, so with a sampler distributing exactly its
requested number of samples every per-time outcome distribution sums
to 1. -/
theorem claim_C3 [Fintype Ω] (prims : Prims α) (st : SimState α)
    (solve : SimState α → R) (sample : R → ℚ → ℕ → Ω → ℕ)
    (uB : ℕ → ℕ → ℚ) (dC : ℕ → NoiseDraws)
    (hguard : spam_guard st = Except.ok ())
    (hsub : ∀ x ∈ st.config.noise, x = "dephasing" ∨ x = "SPAM")
    (hspam : "SPAM" ∈ st.config.noise) (heta : 0 < st.config.eta)
    (hruns : 0 < st.config.runs) (hspr : 0 < st.config.samplesPerRun)
    (hsample : ∀ r t n, ∑ o, sample r t n o = n)
    (probs : List (Ω → ℚ))
    (hres : (runSim prims st solve sample uB dC).result =
      Except.ok (RunResult.noisy probs)) :
    (runSim prims st solve sample uB dC).solves =
      (caseBDraws st uB).dedup.length ∧
    probs.length = st.evalTimes.length ∧
    ∀ i, ∀ hi : i < probs.length, ∑ o, probs[i] o = 1 := by
  have hB : ¬ ("SPAM" ∉ st.config.noise ∨ st.config.eta = 0) := by
    push_neg
    exact ⟨hspam, ne_of_gt heta⟩
  have hlenC := runLoop_counts_length solve sample st.evalTimes
    st.config.samplesPerRun
    ((caseBConfigs st uB).map (fun p => (p.2, fun s =>
      construct_hamiltonian prims (loadBadAtoms s p.1) (dC 0) false))) st
  have hsumC := runLoop_counts_sum solve sample st.evalTimes
    st.config.samplesPerRun hsample
    ((caseBConfigs st uB).map (fun p => (p.2, fun s =>
      construct_hamiltonian prims (loadBadAtoms s p.1) (dC 0) false))) st
  have hsolves := runLoop_ok_solves solve sample st.evalTimes
    st.config.samplesPerRun
    ((caseBConfigs st uB).map (fun p => (p.2, fun s =>
      construct_hamiltonian prims (loadBadAtoms s p.1) (dC 0) false))) st
  unfold runSim at hres ⊢
  rw [hguard] at hres ⊢
  dsimp only at hres ⊢
  rw [if_pos hsub, if_neg hB] at hres ⊢
  dsimp only at hres ⊢
  revert hres
  generalize hQ : runLoop solve sample st.evalTimes st.config.samplesPerRun
    ((caseBConfigs st uB).map (fun p => (p.2, fun s =>
      construct_hamiltonian prims (loadBadAtoms s p.1) (dC 0) false))) st = q
  rcases q with ⟨r, cs, n⟩
  intro hres
  cases r with
  | error e => exact Except.noConfusion hres
  | ok u =>
    rw [hQ] at hlenC hsumC hsolves
    have hres2 : Except.ok (RunResult.noisy (cs.map (fun c => fun o =>
        (c o : ℚ) / ((st.config.runs * st.config.samplesPerRun : ℕ) : ℚ)))) =
        Except.ok (RunResult.noisy probs) := hres
    have hp : probs = cs.map (fun c => fun o =>
        (c o : ℚ) / ((st.config.runs * st.config.samplesPerRun : ℕ) : ℚ)) :=
      (RunResult.noisy.inj (Except.ok.inj hres2)).symm
    subst hp
    have hok : ((Except.ok u : Except String Unit), cs, n).1.isOk = true := rfl
    have hcs : cs.length = st.evalTimes.length := hlenC
    have htot : (((caseBConfigs st uB).map (fun p => (p.2, fun s =>
        construct_hamiltonian prims (loadBadAtoms s p.1) (dC 0) false))).map
          Prod.fst).sum = st.config.runs := by
      rw [List.map_map]
      unfold caseBConfigs
      rw [List.map_map]
      show ((caseBDraws st uB).dedup.map
        (fun c => (caseBDraws st uB).count c)).sum = st.config.runs
      rw [sum_map_count_dedup (caseBDraws st uB)]
      unfold caseBDraws
      rw [List.length_map, List.length_range]
    refine ⟨?_, ?_, ?_⟩
    · show n = (caseBDraws st uB).dedup.length
      have hn2 : n = ((caseBConfigs st uB).map (fun p => (p.2, fun s =>
          construct_hamiltonian prims (loadBadAtoms s p.1) (dC 0) false))).length :=
        hsolves hok
      rw [hn2, List.length_map]
      unfold caseBConfigs
      rw [List.length_map]
    · rw [List.length_map]
      exact hcs
    · intro i hi
      have hip : i < cs.length := by
        rw [List.length_map] at hi
        exact hi
      simp only [List.getElem_map]
      have hs3 : ∑ o, (cs.getD i (fun _ => 0)) o =
          st.config.samplesPerRun * st.config.runs := by
        have hh := hsumC hok i (hcs ▸ hip)
        rw [htot] at hh
        exact hh
      rw [List.getD_eq_getElem _ _ hip] at hs3
      rw [← Finset.sum_div, ← Nat.cast_sum, hs3]
      have h0 : ((st.config.runs * st.config.samplesPerRun : ℕ) : ℚ) ≠ 0 :=
        Nat.cast_ne_zero.mpr (Nat.mul_ne_zero
          (Nat.pos_iff_ne_zero.mp hruns) (Nat.pos_iff_ne_zero.mp hspr))
      push_cast at h0 ⊢
      rw [mul_comm (st.config.samplesPerRun : ℚ)]
      exact div_self h0

/-- The Case-B run of `stB` with the oracles `sampleW`, `uBW`. -/
def runB : RunOut ℕ Bool :=
  runSim prims0 stB (fun _ => (0 : ℕ)) sampleW uBW (fun _ => draws0)

/-- The outcome distributions returned by `runB`. -/
def probsB : List (Bool → ℚ) :=
  match runB.result with
  | Except.ok (RunResult.noisy ps) => ps
  | _ => []

/-- Witness for C3: the concrete Case-B run of `stB` solves once per
distinct configuration, returns one distribution per evaluation time,
and its first per-time distribution sums to 1. -/
theorem claim_C3_witness :
    runB.solves = (caseBDraws stB uBW).dedup.length ∧
    probsB.length = 2 ∧
    ∑ o, (probsB.getD 0 (fun _ => 0)) o = 1 := by
  have h := claim_C3 prims0 stB (fun _ => (0 : ℕ)) sampleW uBW (fun _ => draws0)
    (by decide) (by decide) (by decide) (by decide) (by decide) (by decide)
    (by intro r t n; simp [sampleW]) probsB rfl
  refine ⟨h.1, ?_, ?_⟩
  · rw [h.2.1]
    rfl
  · have h0 : (0 : ℕ) < probsB.length := by
      rw [h.2.1]
      decide
    rw [List.getD_eq_getElem _ _ h0]
    exact h.2.2 0 h0

/-! ### Claim C4: the SPAM fail-fast guard -/

/-- C4: with SPAM noise, `eta > 0`, and an initial state different from
the all-ground tensor whenever that comparison state can be formed (in XY
mode the lookup of basis key `g` itself raises), `run` raises before any
solver invocation: the result is an error and zero solves completed. -/
theorem claim_C4 (prims : Prims α) (st : SimState α) (solve : SimState α → R)
    (sample : R → ℚ → ℕ → Ω → ℕ) (uB : ℕ → ℕ → ℚ) (dC : ℕ → NoiseDraws)
    (hspam : "SPAM" ∈ st.config.noise) (heta : 0 < st.config.eta)
    (hdiff : ∀ g, ground_ket st = Except.ok g → st.initialState ≠ g) :
    (runSim prims st solve sample uB dC).result.isOk = false ∧
    (runSim prims st solve sample uB dC).solves = 0 := by
  have hg : ∃ e, spam_guard st = Except.error e := by
    unfold spam_guard
    rw [if_pos hspam, if_pos heta]
    cases hk : ground_ket st with
    | error e => exact ⟨e, rfl⟩
    | ok g =>
      dsimp only
      rw [if_pos (hdiff g hk)]
      exact ⟨_, rfl⟩
  obtain ⟨e, he⟩ := hg
  unfold runSim
  rw [he]
  exact ⟨rfl, rfl⟩

/-- An ising-mode SPAM state whose initial state is not the ground. -/
def stI : SimState ℚ := ⟨seq0, "ising", 1, cfgB, fun _ => false, fun _ => 0,
  some "ground-rydberg", SamplesTable.empty, [], [], [0, 0, 1, 0], [0, 1/1000]⟩

/-- An XY-mode SPAM state (its basis has no key `g`). -/
def stX : SimState ℚ := ⟨seq0, "XY", 1, cfgB, fun _ => false, fun _ => 0,
  some "XY", SamplesTable.empty, [], [], [1, 0, 0, 0], [0, 1/1000]⟩

/-- Witness for C4: both the ising run from a non-ground state and the XY
run fail before any solve. -/
theorem claim_C4_witness :
    ((runSim prims0 stI (fun _ => (0 : ℕ)) sampleW uBW
        (fun _ => draws0)).result.isOk = false ∧
      (runSim prims0 stI (fun _ => (0 : ℕ)) sampleW uBW
        (fun _ => draws0)).solves = 0) ∧
    ((runSim prims0 stX (fun _ => (0 : ℕ)) sampleW uBW
        (fun _ => draws0)).result.isOk = false ∧
      (runSim prims0 stX (fun _ => (0 : ℕ)) sampleW uBW
        (fun _ => draws0)).solves = 0) := by
  constructor
  · exact claim_C4 prims0 stI (fun _ => (0 : ℕ)) sampleW uBW (fun _ => draws0)
      (by decide) (by decide)
      (by
        intro g hg
        have hgv : ground_ket stI = Except.ok [0, 0, 0, 1] := by decide
        rw [hgv] at hg
        rw [← Except.ok.inj hg]
        decide)
  · exact claim_C4 prims0 stX (fun _ => (0 : ℕ)) sampleW uBW (fun _ => draws0)
      (by decide) (by decide)
      (by
        intro g hg
        rw [show ground_ket stX = Except.error "KeyError: g" from by decide] at hg
        exact Except.noConfusion hg)

end PulserSim
